import Mathlib

/-!
# Verification of the CPaging demand-paging simulator (src/main.cpp)

Shallow embedding of the eviction simulation engine of `src/main.cpp`:
the page table / frame table / free-frame-list data model and the four
policy routines `RAN`, `OPT` (with its helper `identifyPageToRemove`),
`RU` (LRU/MRU) and `FIFO`, each consuming an abstract reference trace.

Modelling conventions, all taken from the source:
* A page-table row `page_table[i][0..2]` becomes a `PTE` (frame, valid
  bit, auxiliary column).  A frame-table row `frame_table[i][0..1]`
  becomes an `FTE` (occupant, auxiliary column).  The valid bit (only
  ever `0` / `1` in the source) is a `Bool`.
* `MAX_NUM_PAGES` / `MAX_PAGE_FRAMES` are generalised to parameters
  `P` / `F` (the source fixes them to `1024` / `48`); table sizes are
  the lengths of the embedded lists.
* The trace is an abstract `List Int` of page identifiers, exactly the
  sequence the routines read with `addresses >> referenceString`.
* Array accesses are modelled by `idx?` / `setIdx?`, which return
  `none` when the C++ access would be out of bounds (undefined
  behaviour).  A whole run therefore returns `none` exactly when the
  C++ would perform an out-of-range table access.
* The source's recency-increment statement
  `frame_table[p][1] = frame_table[p][1]++` assigns the old value of
  the post-increment back to the cell and so leaves the cell unchanged
  (C++17 semantics; before C++17 the statement is undefined); it is
  embedded as a no-op, which is also how the program observably
  behaves.
* Random draws of the `RAN` routine are abstracted as an oracle
  `rs : Nat -> Int` of frame choices (the source scales `rand()` into
  `[0, MAX_PAGE_FRAMES)` either uniformly or with `%`).
-/

set_option maxRecDepth 8192

/-- One `page_table` row: column 0 (the frame), column 1 (the
valid/invalid bit) and column 2 (the auxiliary column).  All three are
initialised to `INVALID_BIT = 0` in `main`. -/
structure PTE where
  frame : Int
  valid : Bool
  aux : Int
deriving DecidableEq, Repr, Inhabited

/-- One `frame_table` row: column 0 (the occupant page) and column 1
(the auxiliary / recency column).  `main` initialises the occupant to
`0` and the auxiliary column to `INVALID_BIT = 0`. -/
structure FTE where
  occupant : Int
  aux : Int
deriving DecidableEq, Repr, Inhabited

/-- The mutable state shared by every policy routine: the page table,
the frame table, the free frame list (a `vector<int>` used as a stack)
and the accumulated fault counter. -/
structure Sim where
  pageTable : List PTE
  frameTable : List FTE
  freeFrameList : List Int
  faultRate : Nat
deriving DecidableEq, Repr

/-- `l[i]` for a C++ `int` index: `none` models an out-of-bounds array
access (undefined behaviour in the source). -/
def idx? (l : List α) (i : Int) : Option α :=
  if h : 0 ≤ i ∧ i.toNat < l.length then some (l.get ⟨i.toNat, h.2⟩) else none

/-- `l[i] = a` for a C++ `int` index: `none` models an out-of-bounds
array write. -/
def setIdx? (l : List α) (i : Int) (a : α) : Option (List α) :=
  if 0 ≤ i ∧ i.toNat < l.length then some (l.set i.toNat a) else none

/-- `isInMemory` (src/main.cpp:284): does `frame_table[page][0]` hold
`reference`?  `page` is a frame index. -/
def isInMemory (frameTable : List FTE) (page reference : Int) : Option Bool := do
  let fte ← idx? frameTable page
  pure (fte.occupant = reference)

/-- The table-update block shared by every fault path:
`page_table[reference][0] = freeframe; page_table[reference][1] =
VALID_BIT; frame_table[freeframe][0] = reference;` (e.g.
src/main.cpp:386-389). -/
def bindPage (s : Sim) (reference freeframe : Int) : Option Sim := do
  let pte ← idx? s.pageTable reference
  let pt ← setIdx? s.pageTable reference { pte with frame := freeframe, valid := true }
  let fte ← idx? s.frameTable freeframe
  let ft ← setIdx? s.frameTable freeframe { fte with occupant := reference }
  pure { s with pageTable := pt, frameTable := ft }

/-- `page_table[oldpage][1] = INVALID_BIT` (e.g. src/main.cpp:419). -/
def invalidatePage (s : Sim) (oldpage : Int) : Option Sim := do
  let pte ← idx? s.pageTable oldpage
  let pt ← setIdx? s.pageTable oldpage { pte with valid := false }
  pure { s with pageTable := pt }

/-- The soft-fault path shared by every routine: pop a frame from the
back of the free frame list, bind the referenced page to it and count
a fault (e.g. src/main.cpp:376-390). -/
def allocFromFreeList (s : Sim) (reference : Int) : Option Sim := do
  let freeframe := s.freeFrameList.getLastD 0
  let s' ← bindPage { s with freeFrameList := s.freeFrameList.dropLast } reference freeframe
  pure { s' with faultRate := s'.faultRate + 1 }

/-- The eviction path taken on an invalid reference with an empty free
list: bind the referenced page to the chosen frame and count a fault.
The source does **not** invalidate the page previously occupying the
chosen frame on this path (e.g. src/main.cpp:386-390, 502-507,
694-698, 861-865). -/
def evictBind (s : Sim) (reference freeframe : Int) : Option Sim := do
  let s' ← bindPage s reference freeframe
  pure { s' with faultRate := s'.faultRate + 1 }

/-- The stale-reference replacement path of `RAN`, `OPT` and `RU`
(valid bit set but the frame table disagrees): read the old frame and
old page, invalidate the old page, bind the reference to the chosen
frame, push the old frame back onto the free frame list and count a
fault (src/main.cpp:406-427, 521-536, 720-763; `RU` increments the
fault counter when entering the branch, with the same net effect). -/
def replaceStale (s : Sim) (reference freeframe oldframe : Int) : Option Sim := do
  let fte ← idx? s.frameTable freeframe
  let s1 ← invalidatePage s fte.occupant
  let s2 ← bindPage s1 reference freeframe
  pure { s2 with freeFrameList := s2.freeFrameList ++ [oldframe],
                 faultRate := s2.faultRate + 1 }

/-- The state of all three tables at the start of a policy run as the
reset loops write them (src/main.cpp:115-128): every page-table column
`INVALID_BIT = 0`, every frame-table occupant `0`, auxiliary column
`0`, and a fresh free frame list holding the frame indices
`0, ..., F-1` in order (what the reset comment prescribes: "the free
frame list should have all the possible frames (from 0 to
MAX_PAGE_FRAMES) listed in its vector").  What `main` actually passes
is modelled separately by `mainFreeListBefore`. -/
def freshSim (P F : Nat) : Sim :=
  { pageTable := List.replicate P ⟨0, false, 0⟩
    frameTable := List.replicate F ⟨0, 0⟩
    freeFrameList := (List.range F).map Int.ofNat
    faultRate := 0 }

/-- The free frame list `main` actually holds before its k-th policy
call (k = 0 for `FIFO`, ..., 5 for `RAN2`): the vector is constructed
as `vector<int> free_frame_list(MAX_PAGE_FRAMES)` — 48 zero entries —
and, because it is passed to every routine **by value**, each of the
six reset blocks appends `0, ..., 47` to the same ever-growing vector
without clearing it (src/main.cpp:92, 126-128, 171-173, 194-196,
217-219, 241-243, 268-270). -/
def mainFreeListBefore : Nat → List Int
  | 0 => List.replicate 48 0 ++ (List.range 48).map Int.ofNat
  | k + 1 => mainFreeListBefore k ++ (List.range 48).map Int.ofNat

/-- One iteration of the `RAN` read loop (src/main.cpp:356-441).
`rs` is the oracle of random frame choices and `n` counts the draws
consumed so far. -/
def stepRAN (rs : Nat → Int) (a : Sim × Nat) (reference : Int) : Option (Sim × Nat) :=
  let (s, n) := a
  match idx? s.pageTable reference with
  | none => none
  | some pte =>
    if pte.valid = false then
      if s.freeFrameList.length = 0 then
        (evictBind s reference (rs n)).map (fun s' => (s', n + 1))
      else
        (allocFromFreeList s reference).map (fun s' => (s', n))
    else
      match isInMemory s.frameTable pte.frame reference with
      | none => none
      | some true => some (s, n)
      | some false =>
        (replaceStale s reference (rs n) pte.frame).map (fun s' => (s', n + 1))

/-- The `RAN` routine on an abstract trace, from the fresh tables. -/
def runRAN (P F : Nat) (rs : Nat → Int) (trace : List Int) : Option (Sim × Nat) :=
  trace.foldlM (stepRAN rs) (freshSim P F, 0)

/-- The inner loop of `identifyPageToRemove` (src/main.cpp:592-597):
index of the first occurrence of `occ` in the remaining reference
string, counting from `j`. -/
def firstMatch : List Int → Int → Nat → Option Nat
  | [], _, _ => none
  | x :: rest, occ, j => if x = occ then some j else firstMatch rest occ (j + 1)

/-- The future-reference distance computed by the scanning loop of
`identifyPageToRemove` (src/main.cpp:583-598): the first index of the
occupant in the remaining reference string, or the sentinel
`PROC_POOL_SIZE + 100` when the occupant never reappears. -/
def futureDistance (poolSize : Nat) (refString : List Int) (occ : Int) : Int :=
  match firstMatch refString occ 0 with
  | some j => (j : Int)
  | none => (poolSize : Int) + 100

/-- The final loop of `identifyPageToRemove` (src/main.cpp:602-609):
scan for the first index holding the maximum value, starting from
`max_turns = -1`, `victim = 0`. -/
def argmaxLoop : List Int → Int → Nat → Nat → Nat
  | [], _, _, victim => victim
  | d :: rest, maxTurns, i, victim =>
    if maxTurns < d then argmaxLoop rest d (i + 1) i
    else argmaxLoop rest maxTurns (i + 1) victim

/-- `identifyPageToRemove` (src/main.cpp:573-612): the frame whose
occupant's next reference lies farthest in the remaining reference
string (sentinel distance for occupants that never reappear). -/
def identifyPageToRemove (poolSize : Nat) (frameTable : List FTE) (refString : List Int) : Nat :=
  argmaxLoop (frameTable.map fun e => futureDistance poolSize refString e.occupant) (-1) 0 0

/-- One iteration of the `OPT` read loop (src/main.cpp:482-559); the
accumulator carries the shrinking `reference_string` vector, from
which the first element is erased at the end of each iteration. -/
def stepOPT (poolSize : Nat) (a : Sim × List Int) (reference : Int) : Option (Sim × List Int) :=
  let (s, refString) := a
  let next : Option Sim :=
    match idx? s.pageTable reference with
    | none => none
    | some pte =>
      if pte.valid = false then
        if s.freeFrameList.length = 0 then
          evictBind s reference (identifyPageToRemove poolSize s.frameTable refString)
        else
          allocFromFreeList s reference
      else
        match isInMemory s.frameTable pte.frame reference with
        | none => none
        | some true => some s
        | some false =>
          replaceStale s reference (identifyPageToRemove poolSize s.frameTable refString)
            pte.frame
  next.map (fun s' => (s', refString.tail))

/-- The `OPT` routine on an abstract trace, from the fresh tables; the
oracle vector initially holds the whole trace and `PROC_POOL_SIZE` is
the trace length. -/
def runOPT (P F : Nat) (trace : List Int) : Option (Sim × List Int) :=
  trace.foldlM (stepOPT trace.length) (freshSim P F, trace)

/-- The LRU victim scan (src/main.cpp:675-684 and 737-749): first
frame attaining the minimum auxiliary value, scanning left to right
from `k = 1` with the running minimum seeded from frame 0 and
`freeframe` seeded to 0. -/
def scanMinLoop : List FTE → Int → Nat → Nat → Nat
  | [], _, _, freeframe => freeframe
  | e :: rest, m, k, freeframe =>
    if e.aux < m then scanMinLoop rest e.aux (k + 1) k
    else scanMinLoop rest m (k + 1) freeframe

/-- The MRU victim scan (src/main.cpp:660-670 and 726-735): first
frame attaining the maximum auxiliary value. -/
def scanMaxLoop : List FTE → Int → Nat → Nat → Nat
  | [], _, _, freeframe => freeframe
  | e :: rest, m, k, freeframe =>
    if m < e.aux then scanMaxLoop rest e.aux (k + 1) k
    else scanMaxLoop rest m (k + 1) freeframe

/-- Entry point of the LRU scan. -/
def scanMin (frameTable : List FTE) : Nat :=
  match frameTable with
  | [] => 0
  | e :: rest => scanMinLoop rest e.aux 1 0

/-- Entry point of the MRU scan. -/
def scanMax (frameTable : List FTE) : Nat :=
  match frameTable with
  | [] => 0
  | e :: rest => scanMaxLoop rest e.aux 1 0

/-- The unconditional tail of every `RU` iteration
(src/main.cpp:787-798): reset the auxiliary column of the frame now
holding the reference; the subsequent increment loop is the no-op
`frame_table[p][1] = frame_table[p][1]++`. -/
def ruTouch (s : Sim) (reference : Int) : Option Sim := do
  let pte ← idx? s.pageTable reference
  let fte ← idx? s.frameTable pte.frame
  let ft ← setIdx? s.frameTable pte.frame { fte with aux := 0 }
  pure { s with frameTable := ft }

/-- One iteration of the `RU` read loop (src/main.cpp:641-799).
`mru = true` selects the `type == "MRU"` scans; anything else defaults
to LRU, as the source does. -/
def stepRU (mru : Bool) (s : Sim) (reference : Int) : Option Sim :=
  let afterBranch : Option Sim :=
    match idx? s.pageTable reference with
    | none => none
    | some pte =>
      if pte.valid = false then
        if s.freeFrameList.length = 0 then
          evictBind s reference
            (if mru then scanMax s.frameTable else scanMin s.frameTable)
        else
          allocFromFreeList s reference
      else
        match isInMemory s.frameTable pte.frame reference with
        | none => none
        | some true => some s
        | some false =>
          replaceStale s reference
            (if mru then scanMax s.frameTable else scanMin s.frameTable) pte.frame
  afterBranch.bind (fun s' => ruTouch s' reference)

/-- The `RU` routine (label "LRU" for `mru = false`, "MRU" for
`mru = true`) on an abstract trace, from the fresh tables. -/
def runRU (P F : Nat) (mru : Bool) (trace : List Int) : Option Sim :=
  trace.foldlM (stepRU mru) (freshSim P F)

/-- The `FIFO` cursor update (src/main.cpp:840-848): decrement, and
reset to `MAX_PAGE_FRAMES - 1` when the decremented value is 0. -/
def fifoAdvance (F : Nat) (c : Int) : Int :=
  if c - 1 = 0 then (F : Int) - 1 else c - 1

/-- Accumulator of the `FIFO` loop: the shared tables, the
`FIFOSelection` cursor, and a ghost log recording each victim frame
selected at the cursor (pure observation, no influence on the run). -/
structure FifoAcc where
  sim : Sim
  cursor : Int
  evictLog : List Int
deriving DecidableEq, Repr

/-- `FIFO`'s guarded invalidation `if (oldpage != -1)
page_table[oldpage][1] = INVALID_BIT` (src/main.cpp:894-896). -/
def invalidateUnlessSentinel (s : Sim) (oldpage : Int) : Option Sim :=
  if oldpage = -1 then some s else invalidatePage s oldpage

/-- The `FIFO` stale-reference replacement path (src/main.cpp:877-903):
invalidate the old page only when it is not `-1`, bind, then clear the
old frame's occupant to `-1`; `FIFO` never pushes onto the free frame
list. -/
def fifoStaleReplace (s : Sim) (reference freeframe : Int) : Option Sim := do
  let pte ← idx? s.pageTable reference
  let oldframe := pte.frame
  let fte ← idx? s.frameTable freeframe
  let oldpage := fte.occupant
  let s1 ← invalidateUnlessSentinel s oldpage
  let s2 ← bindPage s1 reference freeframe
  let fte2 ← idx? s2.frameTable oldframe
  let ft ← setIdx? s2.frameTable oldframe { fte2 with occupant := -1 }
  pure { s2 with frameTable := ft, faultRate := s2.faultRate + 1 }

/-- One iteration of the `FIFO` read loop (src/main.cpp:825-916). -/
def stepFIFO (F : Nat) (a : FifoAcc) (reference : Int) : Option FifoAcc :=
  let s := a.sim
  match idx? s.pageTable reference with
  | none => none
  | some pte =>
    if pte.valid = false then
      if s.freeFrameList.length = 0 then
        (evictBind s reference a.cursor).map
          (fun s' => ⟨s', fifoAdvance F a.cursor, a.evictLog ++ [a.cursor]⟩)
      else
        (allocFromFreeList s reference).map (fun s' => ⟨s', a.cursor, a.evictLog⟩)
    else
      match isInMemory s.frameTable pte.frame reference with
      | none => none
      | some true => some a
      | some false =>
        (fifoStaleReplace s reference a.cursor).map
          (fun s' => ⟨s', fifoAdvance F a.cursor, a.evictLog ++ [a.cursor]⟩)

/-- The `FIFO` routine on an abstract trace, from the fresh tables,
with `FIFOSelection` starting at `MAX_PAGE_FRAMES - 1`
(src/main.cpp:819). -/
def runFIFO (P F : Nat) (trace : List Int) : Option FifoAcc :=
  trace.foldlM (stepFIFO F) ⟨freshSim P F, (F : Int) - 1, []⟩

/-- The sequence of victim frames the `FIFO` cursor selects: the k-th
eviction of a run evicts `fifoSelections F k`. -/
def fifoSelections (F : Nat) : Nat → Int
  | 0 => (F : Int) - 1
  | k + 1 => fifoAdvance F (fifoSelections F k)

/-- A frame is (currently) occupied when its occupant column holds a
page whose page-table row is valid and points back at this frame —
the source's "frame table still agrees with page table" reading of
occupancy. -/
def frameOccupied (s : Sim) (f : Nat) : Bool :=
  decide (f < s.frameTable.length) &&
  decide (0 ≤ (s.frameTable.getD f default).occupant) &&
  decide (((s.frameTable.getD f default).occupant).toNat < s.pageTable.length) &&
  (s.pageTable.getD ((s.frameTable.getD f default).occupant).toNat default).valid &&
  decide ((s.pageTable.getD ((s.frameTable.getD f default).occupant).toNat default).frame
    = (f : Int))

/-- The free-list/occupied-frames partition invariant of the spec:
every frame is free XOR occupied, the free list holds only valid
frame indices, and holds them at most once. -/
def PartitionInv (s : Sim) : Prop :=
  (∀ f : Nat, f < s.frameTable.length →
    (((f : Int) ∈ s.freeFrameList) ↔ frameOccupied s f = false)) ∧
  s.freeFrameList.Nodup ∧
  ∀ x ∈ s.freeFrameList, 0 ≤ x ∧ x.toNat < s.frameTable.length

/-- The spec's LRU victim rule: an index maximising the auxiliary
(recency) column over the whole frame table, with ties broken by the
lowest frame index (every strictly lower index has a strictly smaller
value). -/
def IsLruSpecChoice (frameTable : List FTE) (f : Nat) : Prop :=
  f < frameTable.length ∧
  (∀ k, k < frameTable.length →
    (frameTable.getD k default).aux ≤ (frameTable.getD f default).aux) ∧
  ∀ k, k < f → (frameTable.getD k default).aux < (frameTable.getD f default).aux

/-- A constant draw oracle, used to instantiate `RAN` runs. -/
def zeroDraws : Nat → Int := fun _ => 0

/-- Every auxiliary (recency) column of the frame table is 0. -/
def AuxZero (s : Sim) : Prop := ∀ e ∈ s.frameTable, e.aux = 0

/-- Every entry of the trace is a page identifier in `[0, P)`. -/
def TraceInRange (P : Nat) (trace : List Int) : Prop :=
  ∀ r ∈ trace, 0 ≤ r ∧ r.toNat < P

/-- Every draw of the oracle is a frame index in `[0, F)` — what the
source's `rand()` scaling produces. -/
def DrawsInRange (F : Nat) (rs : Nat → Int) : Prop :=
  ∀ n, 0 ≤ rs n ∧ (rs n).toNat < F

/-- Well-formedness of the shared tables for `RAN`, `OPT` and `RU`
(which never write `-1` into an occupant column): stored frames are
frame indices, stored occupants are page indices, and the free frame
list holds frame indices. -/
def SimWF (s : Sim) : Prop :=
  (∀ e ∈ s.pageTable, 0 ≤ e.frame ∧ e.frame.toNat < s.frameTable.length) ∧
  (∀ e ∈ s.frameTable, 0 ≤ e.occupant ∧ e.occupant.toNat < s.pageTable.length) ∧
  (∀ x ∈ s.freeFrameList, 0 ≤ x ∧ x.toNat < s.frameTable.length)

/-- Well-formedness of the shared tables for `FIFO`, whose
stale-replacement path writes `-1` occupants. -/
def SimWFF (s : Sim) : Prop :=
  (∀ e ∈ s.pageTable, 0 ≤ e.frame ∧ e.frame.toNat < s.frameTable.length) ∧
  (∀ e ∈ s.frameTable,
    (0 ≤ e.occupant ∧ e.occupant.toNat < s.pageTable.length) ∨ e.occupant = -1) ∧
  (∀ x ∈ s.freeFrameList, 0 ≤ x ∧ x.toNat < s.frameTable.length)

/-- Well-formedness of the `FIFO` accumulator: tables well formed and
the cursor a nonzero frame index. -/
def FifoWF (F : Nat) (a : FifoAcc) : Prop :=
  SimWFF a.sim ∧ 0 < a.cursor ∧ a.cursor.toNat < F

/-- The total form of `bindPage`, to which `bindPage` evaluates when
both indices are in range. -/
def bindPageD (s : Sim) (reference freeframe : Int) : Sim :=
  { s with
    pageTable := s.pageTable.set reference.toNat
      { s.pageTable.getD reference.toNat default with frame := freeframe, valid := true }
    frameTable := s.frameTable.set freeframe.toNat
      { s.frameTable.getD freeframe.toNat default with occupant := reference } }

/-- The total form of `invalidatePage`. -/
def invalidatePageD (s : Sim) (oldpage : Int) : Sim :=
  { s with
    pageTable := s.pageTable.set oldpage.toNat
      { s.pageTable.getD oldpage.toNat default with valid := false } }

/-- The total form of `ruTouch`. -/
def ruTouchD (s : Sim) (reference : Int) : Sim :=
  { s with
    frameTable :=
      s.frameTable.set ((s.pageTable.getD reference.toNat default).frame).toNat
        { s.frameTable.getD ((s.pageTable.getD reference.toNat default).frame).toNat default
            with aux := 0 } }

/-- State of the engine while no eviction has yet occurred, after the
prefix `pre` of the trace has been processed: the free frame list is
`[0, k)`; exactly the pages of `pre` are valid, each bound beyond the
free region with the frame table pointing back at it; and every frame
outside the free region is occupied.  All five policies keep this
shape while the trace touches at most `F` distinct pages. -/
def GoodAlloc (P F : Nat) (pre : List Int) (s : Sim) : Prop :=
  s.pageTable.length = P ∧ s.frameTable.length = F ∧
  ∃ k, k ≤ F ∧
    s.freeFrameList = (List.range k).map Int.ofNat ∧
    k + pre.toFinset.card = F ∧
    (∀ p : Nat, p < P →
      ((s.pageTable.getD p default).valid = true ↔ (p : Int) ∈ pre)) ∧
    (∀ p : Nat, p < P → (s.pageTable.getD p default).valid = true →
      0 ≤ (s.pageTable.getD p default).frame ∧
      k ≤ ((s.pageTable.getD p default).frame).toNat ∧
      ((s.pageTable.getD p default).frame).toNat < F ∧
      (s.frameTable.getD ((s.pageTable.getD p default).frame).toNat default).occupant
        = (p : Int)) ∧
    (∀ f : Nat, k ≤ f → f < F → frameOccupied s f = true)

/-- C1: the claim asserts OPT's fault count is at most every other
policy's on the same trace and frame capacity.  With 2 frames on the
trace `0,1,2,0,1,3,1` the source's `OPT` reports 6 faults while its
`FIFO` reports 5: `OPT`'s stale-reference path pushes a still-occupied
frame back onto the free frame list, and the subsequent allocation
silently evicts that frame's occupant without any lookahead, losing
optimality. -/
theorem C1_opt_faults_exceed_fifo :
    (runOPT 4 2 [0, 1, 2, 0, 1, 3, 1]).map (fun a => a.1.faultRate) = some 6 ∧
    (runFIFO 4 2 [0, 1, 2, 0, 1, 3, 1]).map (fun a => a.sim.faultRate) = some 5 := by
  exact ⟨by decide, by decide⟩

/-- C3: after the LRU run on the trace `0,1` (2 frames), page 0 is
resident in frame 1 and one other reference has occurred since page 0
was last touched, so the claim requires frame 1's recency counter to
be 1; the increment statement `frame_table[p][1] = frame_table[p][1]++`
has no net effect and every auxiliary column is still 0. -/
theorem C3_recency_never_incremented :
    (runRU 2 2 false [0, 1]).map
        (fun s => (s.pageTable.map fun e => (e.frame, e.valid),
                   s.frameTable.map fun e => (e.occupant, e.aux)))
      = some ([((1 : Int), true), ((0 : Int), true)],
              [((1 : Int), (0 : Int)), ((0 : Int), (0 : Int))]) := by
  decide

/-- C4: counterexample.  In the `RAN` run on the trace `0,1,0` with one
frame (draws all 0), the free frame list is empty after the second
reference but holds frame 0 again after the third: the stale-reference
path pushes the old frame back after the list has been exhausted. -/
theorem C4_ran_refills_free_list :
    (runRAN 2 1 zeroDraws [0, 1]).map (fun a => a.1.freeFrameList) = some [] ∧
    (runRAN 2 1 zeroDraws [0, 1, 0]).map (fun a => a.1.freeFrameList) = some [0] := by
  exact ⟨by decide, by decide⟩

/-- C5: the free frame list `main` holds before its first policy call
is not the claimed `[0, 48)`: the constructor already fills it with 48
zeroes, the reset loop appends `0..47` without clearing, and because
the vector is passed by value it keeps growing before every later
run. -/
theorem C5_main_free_list_not_fresh :
    mainFreeListBefore 0 ≠ (List.range 48).map Int.ofNat ∧
    (mainFreeListBefore 0).length = 96 ∧
    (mainFreeListBefore 1).length = 144 ∧
    ¬ (mainFreeListBefore 0).Nodup := by
  refine ⟨by decide, by decide, by decide, by decide⟩

/-- C6: counterexample.  After the `RAN` run on the trace `0,1,0` with
one frame (draws all 0), frame 0 is simultaneously in the free frame
list and occupied (page 0 is valid, points at frame 0, and the frame
table agrees), violating the free XOR occupied partition. -/
theorem C6_frame_both_free_and_occupied :
    (runRAN 2 1 zeroDraws [0, 1, 0]).map
        (fun a => (decide ((0 : Int) ∈ a.1.freeFrameList), frameOccupied a.1 0))
      = some (true, true) := by
  decide

/-- C7: counterexample.  A `FIFO` run with the source's 48 frames on
the trace `0..95` performs exactly 48 consecutive evictions, yet frame
0 is selected 0 times and frame 47 twice — not every frame in
`[0, 48)` exactly once. -/
theorem C7_frame_zero_never_selected :
    (runFIFO 96 48 ((List.range 96).map Int.ofNat)).map
        (fun a => (a.evictLog.length, a.evictLog.count 0, a.evictLog.count 47))
      = some (48, 0, 2) := by
  decide

/-- C9: counterexample.  The trace entry 2000 lies outside
`[0, MAX_PAGES) = [0, 1024)`, and the `RAN` routine reaches
`page_table[2000]` with no prior rejection: the run's very first table
access is out of range (modelled `none`), rather than the entry being
rejected before it is used to index the page table. -/
theorem C9_out_of_range_reference_indexes_table :
    runRAN 1024 48 zeroDraws [2000] = none := by
  decide

theorem idx?_eq_some_getD {l : List α} {i : Int} [Inhabited α]
    (h0 : 0 ≤ i) (h : i.toNat < l.length) : idx? l i = some (l.getD i.toNat default) := by
  unfold idx?
  rw [dif_pos ⟨h0, h⟩]
  simp [List.getD_eq_getElem?_getD, List.getElem?_eq_getElem h]

theorem idx?_eq_none {l : List α} {i : Int}
    (h : ¬(0 ≤ i ∧ i.toNat < l.length)) : idx? l i = none := by
  unfold idx?
  rw [dif_neg h]

theorem idx?_some_inv {l : List α} {i : Int} {a : α}
    (h : idx? l i = some a) : 0 ≤ i ∧ i.toNat < l.length ∧ a ∈ l := by
  unfold idx? at h
  split at h
  · next hb =>
    have h' := Option.some.inj h
    exact ⟨hb.1, hb.2, h' ▸ List.get_mem l _ _⟩
  · exact absurd h (by simp)

theorem setIdx?_eq_some {l : List α} {i : Int} {a : α}
    (h0 : 0 ≤ i) (h : i.toNat < l.length) : setIdx? l i a = some (l.set i.toNat a) := by
  unfold setIdx?
  rw [if_pos ⟨h0, h⟩]

theorem bindPage_eq {s : Sim} {reference freeframe : Int}
    (h0r : 0 ≤ reference) (hr : reference.toNat < s.pageTable.length)
    (h0f : 0 ≤ freeframe) (hf : freeframe.toNat < s.frameTable.length) :
    bindPage s reference freeframe = some (bindPageD s reference freeframe) := by
  unfold bindPage bindPageD
  simp only [idx?_eq_some_getD h0r hr, setIdx?_eq_some h0r hr,
    idx?_eq_some_getD h0f hf, setIdx?_eq_some h0f hf,
    Option.bind_eq_bind, Option.some_bind]
  rfl

theorem invalidatePage_eq {s : Sim} {oldpage : Int}
    (h0 : 0 ≤ oldpage) (h : oldpage.toNat < s.pageTable.length) :
    invalidatePage s oldpage = some (invalidatePageD s oldpage) := by
  unfold invalidatePage invalidatePageD
  simp only [idx?_eq_some_getD h0 h, setIdx?_eq_some h0 h,
    Option.bind_eq_bind, Option.some_bind]
  rfl

theorem setIdx?_some_inv {l l' : List α} {i : Int} {a : α}
    (h : setIdx? l i a = some l') :
    0 ≤ i ∧ i.toNat < l.length ∧ l' = l.set i.toNat a := by
  unfold setIdx? at h
  split at h
  · next hb => exact ⟨hb.1, hb.2, (Option.some.inj h).symm⟩
  · exact absurd h (by simp)

theorem bindPage_fields {s s' : Sim} {r f : Int} (h : bindPage s r f = some s') :
    s'.freeFrameList = s.freeFrameList ∧ s'.faultRate = s.faultRate ∧
    s'.pageTable.length = s.pageTable.length ∧
    s'.frameTable.length = s.frameTable.length := by
  unfold bindPage at h
  simp only [Option.bind_eq_bind, Option.bind_eq_some, Option.pure_def,
    Option.some.injEq] at h
  obtain ⟨pte, hpte, pt, hpt, fte, hfte, ft, hft, hs'⟩ := h
  obtain ⟨-, -, rfl⟩ := setIdx?_some_inv hpt
  obtain ⟨-, -, rfl⟩ := setIdx?_some_inv hft
  subst hs'
  simp [List.length_set]

theorem invalidatePage_fields {s s' : Sim} {p : Int} (h : invalidatePage s p = some s') :
    s'.freeFrameList = s.freeFrameList ∧ s'.faultRate = s.faultRate ∧
    s'.pageTable.length = s.pageTable.length ∧
    s'.frameTable = s.frameTable := by
  unfold invalidatePage at h
  simp only [Option.bind_eq_bind, Option.bind_eq_some, Option.pure_def,
    Option.some.injEq] at h
  obtain ⟨pte, hpte, pt, hpt, hs'⟩ := h
  obtain ⟨-, -, rfl⟩ := setIdx?_some_inv hpt
  subst hs'
  simp [List.length_set]

theorem evictBind_fields {s s' : Sim} {r f : Int} (h : evictBind s r f = some s') :
    s'.freeFrameList = s.freeFrameList ∧ s'.faultRate = s.faultRate + 1 ∧
    s'.pageTable.length = s.pageTable.length ∧
    s'.frameTable.length = s.frameTable.length := by
  unfold evictBind at h
  simp only [Option.bind_eq_bind, Option.bind_eq_some, Option.pure_def,
    Option.some.injEq] at h
  obtain ⟨s1, hs1, hs'⟩ := h
  obtain ⟨h1, h2, h3, h4⟩ := bindPage_fields hs1
  subst hs'
  exact ⟨h1, by rw [h2], h3, h4⟩

theorem allocFromFreeList_fields {s s' : Sim} {r : Int}
    (h : allocFromFreeList s r = some s') :
    s'.freeFrameList = s.freeFrameList.dropLast ∧ s'.faultRate = s.faultRate + 1 ∧
    s'.pageTable.length = s.pageTable.length ∧
    s'.frameTable.length = s.frameTable.length := by
  unfold allocFromFreeList at h
  simp only [Option.bind_eq_bind, Option.bind_eq_some, Option.pure_def,
    Option.some.injEq] at h
  obtain ⟨s1, hs1, hs'⟩ := h
  obtain ⟨h1, h2, h3, h4⟩ := bindPage_fields hs1
  subst hs'
  exact ⟨h1, by rw [h2], h3, h4⟩

theorem replaceStale_fields {s s' : Sim} {r f old : Int}
    (h : replaceStale s r f old = some s') :
    s'.freeFrameList = s.freeFrameList ++ [old] ∧ s'.faultRate = s.faultRate + 1 ∧
    s'.pageTable.length = s.pageTable.length ∧
    s'.frameTable.length = s.frameTable.length := by
  unfold replaceStale at h
  simp only [Option.bind_eq_bind, Option.bind_eq_some, Option.pure_def,
    Option.some.injEq] at h
  obtain ⟨fte, hfte, s1, hs1, s2, hs2, hs'⟩ := h
  obtain ⟨i1, i2, i3, i4⟩ := invalidatePage_fields hs1
  obtain ⟨b1, b2, b3, b4⟩ := bindPage_fields hs2
  subst hs'
  refine ⟨by rw [b1, i1], by rw [b2, i2], by rw [b3, i3], by rw [b4, i4]⟩

theorem ruTouch_fields {s s' : Sim} {r : Int} (h : ruTouch s r = some s') :
    s'.freeFrameList = s.freeFrameList ∧ s'.faultRate = s.faultRate ∧
    s'.pageTable = s.pageTable ∧
    s'.frameTable.length = s.frameTable.length := by
  unfold ruTouch at h
  simp only [Option.bind_eq_bind, Option.bind_eq_some, Option.pure_def,
    Option.some.injEq] at h
  obtain ⟨pte, hpte, fte, hfte, ft, hft, hs'⟩ := h
  obtain ⟨-, -, rfl⟩ := setIdx?_some_inv hft
  subst hs'
  simp [List.length_set]

theorem fifoStaleReplace_fields {s s' : Sim} {r f : Int}
    (h : fifoStaleReplace s r f = some s') :
    s'.freeFrameList = s.freeFrameList ∧ s'.faultRate = s.faultRate + 1 ∧
    s'.pageTable.length = s.pageTable.length ∧
    s'.frameTable.length = s.frameTable.length := by
  unfold fifoStaleReplace at h
  simp only [Option.bind_eq_bind, Option.bind_eq_some, Option.pure_def,
    Option.some.injEq] at h
  obtain ⟨pte, hpte, fte, hfte, s1, hs1, s2, hs2, fte2, hfte2, ft, hft, hs'⟩ := h
  obtain ⟨-, -, rfl⟩ := setIdx?_some_inv hft
  have hfl1 : s1.freeFrameList = s.freeFrameList ∧ s1.faultRate = s.faultRate ∧
      s1.pageTable.length = s.pageTable.length ∧ s1.frameTable = s.frameTable := by
    unfold invalidateUnlessSentinel at hs1
    by_cases hq : fte.occupant = -1
    · rw [if_pos hq] at hs1
      cases hs1
      exact ⟨rfl, rfl, rfl, rfl⟩
    · rw [if_neg hq] at hs1
      exact invalidatePage_fields hs1
  obtain ⟨i1, i2, i3, i4⟩ := hfl1
  obtain ⟨b1, b2, b3, b4⟩ := bindPage_fields hs2
  subst hs'
  refine ⟨by rw [b1, i1], by rw [b2, i2], by rw [b3, i3], by simp [List.length_set, b4, i4]⟩

theorem evictBind_eq {s : Sim} {r f : Int}
    (h0r : 0 ≤ r) (hr : r.toNat < s.pageTable.length)
    (h0f : 0 ≤ f) (hf : f.toNat < s.frameTable.length) :
    evictBind s r f
      = some { bindPageD s r f with faultRate := s.faultRate + 1 } := by
  unfold evictBind
  simp only [bindPage_eq h0r hr h0f hf, Option.bind_eq_bind, Option.some_bind]
  rfl

theorem allocFromFreeList_eq {s : Sim} {r : Int}
    (h0r : 0 ≤ r) (hr : r.toNat < s.pageTable.length)
    (h0f : 0 ≤ s.freeFrameList.getLastD 0)
    (hf : (s.freeFrameList.getLastD 0).toNat < s.frameTable.length) :
    allocFromFreeList s r
      = some { bindPageD { s with freeFrameList := s.freeFrameList.dropLast } r
                 (s.freeFrameList.getLastD 0) with
               faultRate := s.faultRate + 1 } := by
  unfold allocFromFreeList
  simp only [bindPage_eq (s := { s with freeFrameList := s.freeFrameList.dropLast }) h0r hr h0f hf,
    Option.bind_eq_bind, Option.some_bind]
  rfl

theorem replaceStale_eq {s : Sim} {r f old : Int}
    (h0f : 0 ≤ f) (hf : f.toNat < s.frameTable.length)
    (h0q : 0 ≤ (s.frameTable.getD f.toNat default).occupant)
    (hq : ((s.frameTable.getD f.toNat default).occupant).toNat < s.pageTable.length)
    (h0r : 0 ≤ r) (hr : r.toNat < s.pageTable.length) :
    replaceStale s r f old
      = some { bindPageD (invalidatePageD s (s.frameTable.getD f.toNat default).occupant) r f
                 with
               freeFrameList := s.freeFrameList ++ [old],
               faultRate := s.faultRate + 1 } := by
  unfold replaceStale
  rw [idx?_eq_some_getD h0f hf]
  simp only [Option.bind_eq_bind, Option.some_bind]
  rw [invalidatePage_eq h0q hq]
  simp only [Option.some_bind]
  rw [bindPage_eq (s := invalidatePageD s (s.frameTable.getD f.toNat default).occupant) h0r
    (by simpa [invalidatePageD, List.length_set] using hr) h0f
    (by simpa [invalidatePageD] using hf)]
  simp only [Option.some_bind]
  rfl

theorem ruTouch_eq {s : Sim} {r : Int}
    (h0r : 0 ≤ r) (hr : r.toNat < s.pageTable.length)
    (h0f : 0 ≤ (s.pageTable.getD r.toNat default).frame)
    (hf : ((s.pageTable.getD r.toNat default).frame).toNat < s.frameTable.length) :
    ruTouch s r = some (ruTouchD s r) := by
  unfold ruTouch ruTouchD
  rw [idx?_eq_some_getD h0r hr]
  simp only [Option.bind_eq_bind, Option.some_bind]
  rw [idx?_eq_some_getD h0f hf]
  simp only [Option.some_bind]
  rw [setIdx?_eq_some h0f hf]
  rfl

theorem isInMemory_eq {frameTable : List FTE} {page r : Int}
    (h0 : 0 ≤ page) (h : page.toNat < frameTable.length) :
    isInMemory frameTable page r
      = some (decide ((frameTable.getD page.toNat default).occupant = r)) := by
  unfold isInMemory
  rw [idx?_eq_some_getD h0 h]
  simp only [Option.bind_eq_bind, Option.some_bind]
  rfl

theorem foldlM_option_invariant {σ α : Type _} (step : σ → α → Option σ) (Inv : σ → Prop)
    (hstep : ∀ s a s', Inv s → step s a = some s' → Inv s') :
    ∀ (l : List α) (s s' : σ), Inv s → l.foldlM step s = some s' → Inv s' := by
  intro l
  induction l with
  | nil => intro s s' hs h; simp only [List.foldlM_nil] at h; cases h; exact hs
  | cons a t ih =>
    intro s s' hs h
    rw [List.foldlM_cons] at h
    simp only [Option.bind_eq_bind, Option.bind_eq_some] at h
    obtain ⟨s1, hs1, hrest⟩ := h
    exact ih s1 s' (hstep s a s1 hs hs1) hrest

theorem foldlM_take_succ {σ α : Type _} (step : σ → α → Option σ) (l : List α) (s0 : σ)
    (n : Nat) (hn : n < l.length) :
    (l.take (n + 1)).foldlM step s0
      = ((l.take n).foldlM step s0).bind (fun s => step s (l.get ⟨n, hn⟩)) := by
  have hget : l[n]? = some (l.get ⟨n, hn⟩) := by
    simp [List.getElem?_eq_getElem hn]
  rw [List.take_succ, hget, List.foldlM_append]
  simp only [Option.toList_some, List.foldlM_cons, List.foldlM_nil, Option.bind_eq_bind]
  congr 1
  funext s
  cases step s (l.get ⟨n, hn⟩) <;> rfl

theorem scanMinLoop_const {l : List FTE} {m : Int} {k ff : Nat}
    (h : ∀ e ∈ l, e.aux = m) : scanMinLoop l m k ff = ff := by
  induction l generalizing k with
  | nil => rfl
  | cons e rest ih =>
    have he : e.aux = m := h e (List.mem_cons_self e rest)
    unfold scanMinLoop
    rw [he, if_neg (lt_irrefl m)]
    exact ih (fun e' he' => h e' (List.mem_cons_of_mem e he'))

theorem scanMaxLoop_const {l : List FTE} {m : Int} {k ff : Nat}
    (h : ∀ e ∈ l, e.aux = m) : scanMaxLoop l m k ff = ff := by
  induction l generalizing k with
  | nil => rfl
  | cons e rest ih =>
    have he : e.aux = m := h e (List.mem_cons_self e rest)
    unfold scanMaxLoop
    rw [he, if_neg (lt_irrefl m)]
    exact ih (fun e' he' => h e' (List.mem_cons_of_mem e he'))

theorem scanMin_eq_zero {ft : List FTE} (h : ∀ e ∈ ft, e.aux = 0) : scanMin ft = 0 := by
  cases ft with
  | nil => rfl
  | cons e rest =>
    unfold scanMin
    have he : e.aux = 0 := h e (List.mem_cons_self e rest)
    exact scanMinLoop_const (m := e.aux)
      (fun e' he' => by rw [h e' (List.mem_cons_of_mem e he'), he])

theorem scanMax_eq_zero {ft : List FTE} (h : ∀ e ∈ ft, e.aux = 0) : scanMax ft = 0 := by
  cases ft with
  | nil => rfl
  | cons e rest =>
    unfold scanMax
    have he : e.aux = 0 := h e (List.mem_cons_self e rest)
    exact scanMaxLoop_const (m := e.aux)
      (fun e' he' => by rw [h e' (List.mem_cons_of_mem e he'), he])

theorem bindPage_auxZero {s s' : Sim} {r f : Int} (h : bindPage s r f = some s')
    (ha : AuxZero s) : AuxZero s' := by
  unfold bindPage at h
  simp only [Option.bind_eq_bind, Option.bind_eq_some, Option.pure_def,
    Option.some.injEq] at h
  obtain ⟨pte, hpte, pt, hpt, fte, hfte, ft, hft, hs'⟩ := h
  obtain ⟨-, -, hmem⟩ := idx?_some_inv hfte
  obtain ⟨-, -, rfl⟩ := setIdx?_some_inv hft
  subst hs'
  intro e he
  rcases List.mem_or_eq_of_mem_set he with h1 | h1
  · exact ha e h1
  · rw [h1]
    exact ha fte hmem

theorem invalidatePage_auxZero {s s' : Sim} {p : Int} (h : invalidatePage s p = some s')
    (ha : AuxZero s) : AuxZero s' := by
  have := (invalidatePage_fields h).2.2.2
  unfold AuxZero
  rw [this]
  exact ha

theorem evictBind_auxZero {s s' : Sim} {r f : Int} (h : evictBind s r f = some s')
    (ha : AuxZero s) : AuxZero s' := by
  unfold evictBind at h
  simp only [Option.bind_eq_bind, Option.bind_eq_some, Option.pure_def,
    Option.some.injEq] at h
  obtain ⟨s1, hs1, hs'⟩ := h
  subst hs'
  intro e he
  exact bindPage_auxZero hs1 ha e he

theorem allocFromFreeList_auxZero {s s' : Sim} {r : Int}
    (h : allocFromFreeList s r = some s') (ha : AuxZero s) : AuxZero s' := by
  unfold allocFromFreeList at h
  simp only [Option.bind_eq_bind, Option.bind_eq_some, Option.pure_def,
    Option.some.injEq] at h
  obtain ⟨s1, hs1, hs'⟩ := h
  subst hs'
  intro e he
  exact bindPage_auxZero hs1 ha e he

theorem replaceStale_auxZero {s s' : Sim} {r f old : Int}
    (h : replaceStale s r f old = some s') (ha : AuxZero s) : AuxZero s' := by
  unfold replaceStale at h
  simp only [Option.bind_eq_bind, Option.bind_eq_some, Option.pure_def,
    Option.some.injEq] at h
  obtain ⟨fte, hfte, s1, hs1, s2, hs2, hs'⟩ := h
  subst hs'
  intro e he
  exact bindPage_auxZero hs2 (invalidatePage_auxZero hs1 ha) e he

theorem ruTouch_auxZero {s s' : Sim} {r : Int} (h : ruTouch s r = some s')
    (ha : AuxZero s) : AuxZero s' := by
  unfold ruTouch at h
  simp only [Option.bind_eq_bind, Option.bind_eq_some, Option.pure_def,
    Option.some.injEq] at h
  obtain ⟨pte, hpte, fte, hfte, ft, hft, hs'⟩ := h
  obtain ⟨-, -, rfl⟩ := setIdx?_some_inv hft
  subst hs'
  intro e he
  rcases List.mem_or_eq_of_mem_set he with h1 | h1
  · exact ha e h1
  · rw [h1]

theorem stepRU_auxZero {mru : Bool} {s s' : Sim} {r : Int}
    (h : stepRU mru s r = some s') (ha : AuxZero s) : AuxZero s' := by
  unfold stepRU at h
  simp only [Option.bind_eq_some] at h
  obtain ⟨s1, hs1, htouch⟩ := h
  refine ruTouch_auxZero htouch ?_
  split at hs1
  · exact absurd hs1 (by simp)
  · split at hs1
    · split at hs1
      · exact evictBind_auxZero hs1 ha
      · exact allocFromFreeList_auxZero hs1 ha
    · split at hs1
      · exact absurd hs1 (by simp)
      · cases hs1; exact ha
      · exact replaceStale_auxZero hs1 ha

theorem stepRU_mru_irrel {s : Sim} {r : Int} (ha : AuxZero s) (mru : Bool) :
    stepRU mru s r = stepRU false s r := by
  cases mru with
  | false => rfl
  | true =>
    unfold stepRU
    rw [show scanMax s.frameTable = scanMin s.frameTable by
      rw [scanMax_eq_zero ha, scanMin_eq_zero ha]]
    simp only [ite_self]

theorem freshSim_auxZero (P F : Nat) : AuxZero (freshSim P F) := by
  intro e he
  rw [(List.mem_replicate.mp he).2]

theorem foldlM_stepRU_mru_irrel (t : List Int) :
    ∀ s : Sim, AuxZero s →
      t.foldlM (stepRU false) s = t.foldlM (stepRU true) s := by
  induction t with
  | nil => intro s _; rfl
  | cons r t ih =>
    intro s ha
    rw [List.foldlM_cons, List.foldlM_cons, stepRU_mru_irrel ha true]
    cases hs1 : stepRU false s r with
    | none => rfl
    | some s1 =>
      simp only [Option.bind_eq_bind, Option.some_bind]
      exact ih s1 (stepRU_auxZero hs1 ha)

/-- C10: running `RU` with type "LRU" and with type "MRU" produces
identical results on every trace — same step-by-step behaviour, same
final tables and same fault count — because every recency counter
stays 0 for the whole run (the increment is a no-op), so both the
minimum scan and the maximum scan always return frame 0. -/
theorem C10_lru_mru_identical (P F : Nat) (trace : List Int) :
    runRU P F false trace = runRU P F true trace ∧
    ∀ n s, runRU P F false (trace.take n) = some s →
      AuxZero s ∧ scanMin s.frameTable = 0 ∧ scanMax s.frameTable = 0 := by
  constructor
  · exact foldlM_stepRU_mru_irrel trace (freshSim P F) (freshSim_auxZero P F)
  · intro n s hs
    have ha : AuxZero s :=
      foldlM_option_invariant (stepRU false) AuxZero
        (fun s a s' h1 h2 => stepRU_auxZero h2 h1) (trace.take n) (freshSim P F) s
        (freshSim_auxZero P F) hs
    exact ⟨ha, scanMin_eq_zero ha, scanMax_eq_zero ha⟩

/-- Witness for C10 at a concrete input: the LRU and MRU runs of the
trace `0,1` with one frame agree, and the final state has all recency
counters 0 with both scans selecting frame 0. -/
theorem C10_lru_mru_identical_witness :
    runRU 2 1 false [0, 1] = runRU 2 1 true [0, 1] ∧
    (AuxZero { pageTable := [⟨0, true, 0⟩, ⟨0, true, 0⟩],
               frameTable := [⟨1, 0⟩], freeFrameList := [], faultRate := 2 } ∧
     scanMin [⟨1, 0⟩] = 0 ∧ scanMax [⟨1, 0⟩] = 0) :=
  ⟨(C10_lru_mru_identical 2 1 [0, 1]).1,
   (C10_lru_mru_identical 2 1 [0, 1]).2 2
     { pageTable := [⟨0, true, 0⟩, ⟨0, true, 0⟩],
       frameTable := [⟨1, 0⟩], freeFrameList := [], faultRate := 2 } (by decide)⟩

theorem firstMatch_shift (l : List Int) (occ : Int) :
    ∀ j : Nat, firstMatch l occ j = (firstMatch l occ 0).map (· + j) := by
  induction l with
  | nil => intro j; rfl
  | cons x rest ih =>
    intro j
    unfold firstMatch
    by_cases hx : x = occ
    · rw [if_pos hx, if_pos hx]
      simp
    · rw [if_neg hx, if_neg hx, ih (j + 1), ih 1]
      cases firstMatch rest occ 0 with
      | none => rfl
      | some a => simp only [Option.map_some']; congr 1; omega

theorem firstMatch_none_iff (l : List Int) (occ : Int) :
    firstMatch l occ 0 = none ↔ occ ∉ l := by
  induction l with
  | nil => simp [firstMatch]
  | cons x rest ih =>
    unfold firstMatch
    by_cases hx : x = occ
    · rw [if_pos hx]
      subst hx
      simp
    · rw [if_neg hx, firstMatch_shift rest occ 1]
      have hmap : (firstMatch rest occ 0).map (· + 1) = none ↔ firstMatch rest occ 0 = none := by
        cases firstMatch rest occ 0 <;> simp
      rw [hmap, ih, List.mem_cons]
      constructor
      · intro h hc
        rcases hc with hc | hc
        · exact hx hc.symm
        · exact h hc
      · intro h hc
        exact h (Or.inr hc)

theorem firstMatch_some_lt (l : List Int) (occ : Int) :
    ∀ j : Nat, firstMatch l occ 0 = some j → j < l.length := by
  induction l with
  | nil => intro j h; exact absurd h (by simp [firstMatch])
  | cons x rest ih =>
    intro j h
    unfold firstMatch at h
    by_cases hx : x = occ
    · rw [if_pos hx] at h
      cases h
      simp
    · rw [if_neg hx, firstMatch_shift rest occ 1] at h
      cases h0 : firstMatch rest occ 0 with
      | none => rw [h0] at h; exact absurd h (by simp)
      | some a =>
        rw [h0] at h
        simp only [Option.map_some', Option.some.injEq] at h
        have ha := ih a h0
        simp only [List.length_cons]
        omega

theorem futureDistance_nonneg (poolSize : Nat) (refString : List Int) (occ : Int) :
    0 ≤ futureDistance poolSize refString occ := by
  unfold futureDistance
  cases firstMatch refString occ 0 with
  | none => positivity
  | some j => exact Int.ofNat_nonneg j

theorem futureDistance_of_not_mem {poolSize : Nat} {refString : List Int} {occ : Int}
    (h : occ ∉ refString) : futureDistance poolSize refString occ = (poolSize : Int) + 100 := by
  unfold futureDistance
  rw [(firstMatch_none_iff refString occ).mpr h]

theorem futureDistance_lt_of_mem {poolSize : Nat} {refString : List Int} {occ : Int}
    (h : occ ∈ refString) (hlen : refString.length ≤ poolSize) :
    futureDistance poolSize refString occ < (poolSize : Int) + 100 := by
  unfold futureDistance
  cases h0 : firstMatch refString occ 0 with
  | none => exact absurd ((firstMatch_none_iff refString occ).mp h0) (by simpa using h)
  | some j =>
    have hlt := firstMatch_some_lt refString occ j h0
    show (j : Int) < (poolSize : Int) + 100
    exact_mod_cast (show j < poolSize + 100 by omega)

theorem argmaxLoop_spec (ds : List Int) : ∀ (maxT : Int) (i v : Nat),
    (argmaxLoop ds maxT i v = v ∧ ∀ k, k < ds.length → ds.getD k 0 ≤ maxT) ∨
    (∃ k, k < ds.length ∧ argmaxLoop ds maxT i v = i + k ∧ maxT < ds.getD k 0 ∧
      (∀ k', k' < ds.length → ds.getD k' 0 ≤ ds.getD k 0) ∧
      (∀ k', k' < k → ds.getD k' 0 < ds.getD k 0)) := by
  induction ds with
  | nil =>
    intro maxT i v
    left
    exact ⟨rfl, fun k hk => absurd hk (by simp)⟩
  | cons d rest ih =>
    intro maxT i v
    unfold argmaxLoop
    by_cases hd : maxT < d
    · rw [if_pos hd]
      rcases ih d (i + 1) i with ⟨h1, h2⟩ | ⟨k, hk, he, hgt, hub, hstrict⟩
      · right
        refine ⟨0, by simp, by rw [h1, Nat.add_zero], by simpa using hd, ?_, ?_⟩
        · intro k' hk'
          cases k' with
          | zero => exact le_refl _
          | succ k'' =>
            rw [List.getD_cons_succ, List.getD_cons_zero]
            exact h2 k'' (by simpa using hk')
        · intro k' hk'
          exact absurd hk' (Nat.not_lt_zero k')
      · right
        refine ⟨k + 1, by simpa using hk, by rw [he]; omega, ?_, ?_, ?_⟩
        · rw [List.getD_cons_succ]
          exact lt_trans hd hgt
        · intro k' hk'
          cases k' with
          | zero =>
            rw [List.getD_cons_zero, List.getD_cons_succ]
            exact le_of_lt hgt
          | succ k'' =>
            rw [List.getD_cons_succ, List.getD_cons_succ]
            exact hub k'' (by simpa using hk')
        · intro k' hk'
          cases k' with
          | zero =>
            rw [List.getD_cons_zero, List.getD_cons_succ]
            exact hgt
          | succ k'' =>
            rw [List.getD_cons_succ, List.getD_cons_succ]
            exact hstrict k'' (by omega)
    · rw [if_neg hd]
      rcases ih maxT (i + 1) v with ⟨h1, h2⟩ | ⟨k, hk, he, hgt, hub, hstrict⟩
      · left
        refine ⟨h1, ?_⟩
        intro k hk
        cases k with
        | zero => rw [List.getD_cons_zero]; exact not_lt.mp hd
        | succ k'' => rw [List.getD_cons_succ]; exact h2 k'' (by simpa using hk)
      · right
        refine ⟨k + 1, by simpa using hk, by rw [he]; omega, ?_, ?_, ?_⟩
        · rw [List.getD_cons_succ]
          exact hgt
        · intro k' hk'
          cases k' with
          | zero =>
            rw [List.getD_cons_zero, List.getD_cons_succ]
            exact le_of_lt (lt_of_le_of_lt (not_lt.mp hd) hgt)
          | succ k'' =>
            rw [List.getD_cons_succ, List.getD_cons_succ]
            exact hub k'' (by simpa using hk')
        · intro k' hk'
          cases k' with
          | zero =>
            rw [List.getD_cons_zero, List.getD_cons_succ]
            exact lt_of_le_of_lt (not_lt.mp hd) hgt
          | succ k'' =>
            rw [List.getD_cons_succ, List.getD_cons_succ]
            exact hstrict k'' (by omega)

theorem getD_map_fd {ft : List FTE} {f : FTE → Int} {k : Nat} (hk : k < ft.length) :
    (ft.map f).getD k 0 = f (ft.getD k default) := by
  rw [List.getD_eq_getElem?_getD, List.getD_eq_getElem?_getD, List.getElem?_map,
    List.getElem?_eq_getElem hk]
  rfl

/-- C8: `identifyPageToRemove` gives every frame whose occupant never
reappears in the remaining reference string the sentinel distance
`PROC_POOL_SIZE + 100`, which strictly exceeds the next-reference
distance of every occupant that does reappear (the reference string
never being longer than `PROC_POOL_SIZE`), and returns a frame whose
distance is maximal, every strictly lower-indexed frame having a
strictly smaller distance (lowest-index tie-break). -/
theorem C8_opt_victim_selector (poolSize : Nat) (ft : List FTE) (refString : List Int)
    (hft : ft ≠ []) (hlen : refString.length ≤ poolSize) :
    (∀ i j, i < ft.length → j < ft.length →
      (ft.getD i default).occupant ∉ refString →
      (ft.getD j default).occupant ∈ refString →
      futureDistance poolSize refString (ft.getD i default).occupant = (poolSize : Int) + 100 ∧
      futureDistance poolSize refString (ft.getD j default).occupant <
        futureDistance poolSize refString (ft.getD i default).occupant) ∧
    identifyPageToRemove poolSize ft refString < ft.length ∧
    (∀ k, k < ft.length →
      futureDistance poolSize refString (ft.getD k default).occupant ≤
      futureDistance poolSize refString
        (ft.getD (identifyPageToRemove poolSize ft refString) default).occupant) ∧
    (∀ k, k < identifyPageToRemove poolSize ft refString →
      futureDistance poolSize refString (ft.getD k default).occupant <
      futureDistance poolSize refString
        (ft.getD (identifyPageToRemove poolSize ft refString) default).occupant) := by
  have hlen_ds :
      (ft.map (fun e => futureDistance poolSize refString e.occupant)).length = ft.length :=
    List.length_map _ _
  have hgetD : ∀ k, k < ft.length →
      (ft.map (fun e => futureDistance poolSize refString e.occupant)).getD k 0
        = futureDistance poolSize refString (ft.getD k default).occupant :=
    fun k hk => getD_map_fd hk
  have h0 : 0 < ft.length := List.length_pos.mpr hft
  refine ⟨?_, ?_⟩
  · intro i j hi hj hni hmj
    refine ⟨futureDistance_of_not_mem hni, ?_⟩
    rw [futureDistance_of_not_mem hni]
    exact futureDistance_lt_of_mem hmj hlen
  rcases argmaxLoop_spec (ft.map fun e => futureDistance poolSize refString e.occupant) (-1) 0 0
    with ⟨h1, h2⟩ | ⟨k, hk, he, hgt, hub, hstrict⟩
  · exfalso
    have ha := h2 0 (by rw [hlen_ds]; exact h0)
    rw [hgetD 0 h0] at ha
    have hb := futureDistance_nonneg poolSize refString (ft.getD 0 default).occupant
    omega
  · have hkf : k < ft.length := by rw [hlen_ds] at hk; exact hk
    have hvic : identifyPageToRemove poolSize ft refString = k := by
      unfold identifyPageToRemove
      rw [he, Nat.zero_add]
    refine ⟨by rw [hvic]; exact hkf, ?_, ?_⟩
    · intro k' hk'
      have hx := hub k' (by rw [hlen_ds]; exact hk')
      rw [hgetD k' hk', hgetD k hkf] at hx
      rw [hvic]
      exact hx
    · intro k' hk'
      rw [hvic] at hk'
      have hx := hstrict k' hk'
      have hk'f : k' < ft.length := lt_trans hk' hkf
      rw [hgetD k' hk'f, hgetD k hkf] at hx
      rw [hvic]
      exact hx

/-- Witness for C8 at a concrete input: two frames with occupants 3
and 7, remaining reference string `[3]`, pool size 5.  Frame 1's
occupant never reappears and gets the dominating sentinel `5 + 100`,
and the selector's choice lies in range. -/
theorem C8_opt_victim_selector_witness :
    (futureDistance 5 [3] (([⟨3, 0⟩, ⟨7, 0⟩] : List FTE).getD 1 default).occupant
        = (5 : Int) + 100 ∧
      futureDistance 5 [3] (([⟨3, 0⟩, ⟨7, 0⟩] : List FTE).getD 0 default).occupant <
        futureDistance 5 [3] (([⟨3, 0⟩, ⟨7, 0⟩] : List FTE).getD 1 default).occupant) ∧
    identifyPageToRemove 5 [⟨3, 0⟩, ⟨7, 0⟩] [3] < 2 := by
  have h := C8_opt_victim_selector 5 [⟨3, 0⟩, ⟨7, 0⟩] [3] (by decide) (by decide)
  exact ⟨h.1 1 0 (by decide) (by decide) (by decide) (by decide), h.2.1⟩

theorem stepFIFO_freeList {F : Nat} {a a' : FifoAcc} {r : Int}
    (h : stepFIFO F a r = some a') :
    a'.sim.freeFrameList = a.sim.freeFrameList ∨
    a'.sim.freeFrameList = a.sim.freeFrameList.dropLast := by
  unfold stepFIFO at h
  dsimp only at h
  split at h
  · exact absurd h (by simp)
  · split at h
    · split at h
      · rw [Option.map_eq_some'] at h
        obtain ⟨s', hs', rfl⟩ := h
        exact Or.inl (evictBind_fields hs').1
      · rw [Option.map_eq_some'] at h
        obtain ⟨s', hs', rfl⟩ := h
        exact Or.inr (allocFromFreeList_fields hs').1
    · split at h
      · exact absurd h (by simp)
      · cases h
        exact Or.inl rfl
      · rw [Option.map_eq_some'] at h
        obtain ⟨s', hs', rfl⟩ := h
        exact Or.inl (fifoStaleReplace_fields hs').1

theorem stepFIFO_empty_freeList {F : Nat} {a a' : FifoAcc} {r : Int}
    (h : stepFIFO F a r = some a') (he : a.sim.freeFrameList = []) :
    a'.sim.freeFrameList = [] := by
  rcases stepFIFO_freeList h with h1 | h1 <;> rw [h1, he]
  rfl

/-- C4 amended: for the `FIFO` routine the claim holds — `FIFO` never
pushes onto the free frame list, so once the list is empty at some
point of a run it is empty at every later point.  (The stale-reference
paths of `RAN`, `OPT` and `RU` do push the replaced page's old frame
back, so for those routines the list can refill after exhaustion; see
the counterexample.) -/
theorem C4_amended (P F : Nat) (trace : List Int) (n m : Nat) (hnm : n ≤ m)
    (a b : FifoAcc)
    (ha : runFIFO P F (trace.take n) = some a)
    (hb : runFIFO P F (trace.take m) = some b)
    (hempty : a.sim.freeFrameList = []) :
    b.sim.freeFrameList = [] := by
  have hsplit : trace.take m = trace.take n ++ (trace.drop n).take (m - n) := by
    rw [← List.take_add]
    congr 1
    omega
  have hb' : ((trace.drop n).take (m - n)).foldlM (stepFIFO F) a = some b := by
    have hm := hb
    rw [hsplit] at hm
    unfold runFIFO at hm ha
    rw [List.foldlM_append] at hm
    rw [ha] at hm
    simpa using hm
  exact foldlM_option_invariant (stepFIFO F) (fun x => x.sim.freeFrameList = [])
    (fun s r s' h1 h2 => stepFIFO_empty_freeList h2 h1)
    ((trace.drop n).take (m - n)) a b hempty hb'

/-- Witness for C4 amended: on the trace `0,1,2` with 2 frames and 3
pages, the free frame list is empty after two references and still
empty after the third. -/
theorem C4_amended_witness :
    ({ sim := { pageTable := [⟨1, true, 0⟩, ⟨0, true, 0⟩, ⟨1, true, 0⟩],
                frameTable := [⟨1, 0⟩, ⟨2, 0⟩], freeFrameList := [], faultRate := 3 },
       cursor := 1, evictLog := [1] } : FifoAcc).sim.freeFrameList = [] :=
  C4_amended 3 2 [0, 1, 2] 2 3 (by omega)
    { sim := { pageTable := [⟨1, true, 0⟩, ⟨0, true, 0⟩, ⟨0, false, 0⟩],
               frameTable := [⟨1, 0⟩, ⟨0, 0⟩], freeFrameList := [], faultRate := 2 },
      cursor := 1, evictLog := [] }
    { sim := { pageTable := [⟨1, true, 0⟩, ⟨0, true, 0⟩, ⟨1, true, 0⟩],
               frameTable := [⟨1, 0⟩, ⟨2, 0⟩], freeFrameList := [], faultRate := 3 },
      cursor := 1, evictLog := [1] }
    (by decide) (by decide) (by decide)

theorem stepFIFO_log {F : Nat} {a a' : FifoAcc} {r : Int}
    (h : stepFIFO F a r = some a')
    (hc : a.cursor = fifoSelections F a.evictLog.length)
    (hl : a.evictLog = (List.range a.evictLog.length).map (fifoSelections F)) :
    a'.cursor = fifoSelections F a'.evictLog.length ∧
    a'.evictLog = (List.range a'.evictLog.length).map (fifoSelections F) := by
  unfold stepFIFO at h
  dsimp only at h
  have hevict : ∀ s' : Sim,
      a' = ⟨s', fifoAdvance F a.cursor, a.evictLog ++ [a.cursor]⟩ →
      a'.cursor = fifoSelections F a'.evictLog.length ∧
      a'.evictLog = (List.range a'.evictLog.length).map (fifoSelections F) := by
    intro s' ha'
    subst ha'
    constructor
    · show fifoAdvance F a.cursor = fifoSelections F (a.evictLog ++ [a.cursor]).length
      rw [List.length_append, List.length_singleton, hc]
      rfl
    · show a.evictLog ++ [a.cursor]
        = (List.range ((a.evictLog ++ [a.cursor]).length)).map (fifoSelections F)
      rw [List.length_append, List.length_singleton, List.range_succ, List.map_append]
      rw [← hl, hc]
      rfl
  split at h
  · exact absurd h (by simp)
  · split at h
    · split at h
      · rw [Option.map_eq_some'] at h
        obtain ⟨s', hs', rfl⟩ := h
        exact hevict s' rfl
      · rw [Option.map_eq_some'] at h
        obtain ⟨s', hs', rfl⟩ := h
        exact ⟨hc, hl⟩
    · split at h
      · exact absurd h (by simp)
      · cases h
        exact ⟨hc, hl⟩
      · rw [Option.map_eq_some'] at h
        obtain ⟨s', hs', rfl⟩ := h
        exact hevict s' rfl

theorem fifoSelections_formula (F : Nat) (hF : 2 ≤ F) :
    ∀ k, fifoSelections F k = (F : Int) - 1 - ((k % (F - 1) : Nat) : Int) := by
  intro k
  induction k with
  | zero =>
    show (F : Int) - 1 = _
    rw [Nat.zero_mod]
    simp
  | succ k ih =>
    have hdpos : 0 < F - 1 := by omega
    have hm : k % (F - 1) < F - 1 := Nat.mod_lt _ hdpos
    have e1 : (k % (F - 1) + 1) % (F - 1) = (k + 1) % (F - 1) := Nat.mod_add_mod k (F - 1) 1
    show fifoAdvance F (fifoSelections F k) = _
    rw [ih]
    unfold fifoAdvance
    by_cases hcase : k % (F - 1) + 1 = F - 1
    · rw [if_pos (show (F : Int) - 1 - ((k % (F - 1) : Nat) : Int) - 1 = 0 by omega)]
      rw [← e1, hcase, Nat.mod_self, Nat.cast_zero, sub_zero]
    · rw [if_neg (show ¬((F : Int) - 1 - ((k % (F - 1) : Nat) : Int) - 1 = 0) by omega)]
      rw [← e1, Nat.mod_eq_of_lt (show k % (F - 1) + 1 < F - 1 by omega)]
      omega

theorem fifoSelections_ne_zero (F : Nat) (hF : 2 ≤ F) (k : Nat) :
    fifoSelections F k ≠ 0 := by
  rw [fifoSelections_formula F hF]
  have hm : k % (F - 1) < F - 1 := Nat.mod_lt _ (by omega)
  omega

theorem fifoSelections_window (F : Nat) (hF : 2 ≤ F) (k j : Nat)
    (hj1 : 1 ≤ j) (hjF : j < F) :
    ∃ i, i < F - 1 ∧ fifoSelections F (k + i) = (j : Int) ∧
      ∀ i', i' < F - 1 → fifoSelections F (k + i') = (j : Int) → i' = i := by
  have hdpos : 0 < F - 1 := by omega
  have key : ∀ i : Nat,
      fifoSelections F (k + i) = (j : Int) ↔ (k + i) % (F - 1) = F - 1 - j := by
    intro i
    rw [fifoSelections_formula F hF (k + i)]
    have hm : (k + i) % (F - 1) < F - 1 := Nat.mod_lt _ hdpos
    constructor
    · intro h; omega
    · intro h; omega
  have hq := Nat.div_add_mod k (F - 1)
  have hres : (k + (F - 1 - j + (F - 1 - k % (F - 1))) % (F - 1)) % (F - 1)
      = F - 1 - j := by
    rw [Nat.add_mod_mod]
    have hmul : (F - 1) * (k / (F - 1) + 1) = (F - 1) * (k / (F - 1)) + (F - 1) := by ring
    have hma : k % (F - 1) < F - 1 := Nat.mod_lt _ hdpos
    have hrw : k + (F - 1 - j + (F - 1 - k % (F - 1)))
        = F - 1 - j + (F - 1) * (k / (F - 1) + 1) := by omega
    rw [hrw, Nat.add_mul_mod_self_left]
    exact Nat.mod_eq_of_lt (by omega)
  refine ⟨_, Nat.mod_lt _ hdpos, (key _).mpr hres, ?_⟩
  intro i' hi' hsel
  rw [key] at hsel
  have h2 : (k + i') % (F - 1)
      = (k + (F - 1 - j + (F - 1 - k % (F - 1))) % (F - 1)) % (F - 1) := by
    rw [hsel, hres]
  have h3 := Nat.ModEq.add_left_cancel' k h2
  unfold Nat.ModEq at h3
  rw [Nat.mod_eq_of_lt hi', Nat.mod_eq_of_lt (Nat.mod_lt _ hdpos)] at h3
  exact h3

/-- C7 amended: the `FIFO` cursor starts at `MAX_FRAMES - 1` and
decrements per eviction, but it resets to `MAX_FRAMES - 1` as soon as
the decremented value reaches 0, so frame 0 is **never** selected: the
k-th eviction of any run evicts `fifoSelections F k =
F - 1 - (k mod (F-1))`, which is never 0, and over any `MAX_FRAMES - 1`
consecutive evictions every frame index in `[1, MAX_FRAMES)` is
selected exactly once. -/
theorem C7_fifo_cursor_skips_frame_zero (P F : Nat) (hF : 2 ≤ F) (trace : List Int) :
    (∀ n a, runFIFO P F (trace.take n) = some a →
      a.cursor = fifoSelections F a.evictLog.length ∧
      a.evictLog = (List.range a.evictLog.length).map (fifoSelections F)) ∧
    (∀ k, fifoSelections F k = (F : Int) - 1 - ((k % (F - 1) : Nat) : Int) ∧
      fifoSelections F k ≠ 0) ∧
    (∀ k j, 1 ≤ j → j < F →
      ∃ i, i < F - 1 ∧ fifoSelections F (k + i) = (j : Int) ∧
        ∀ i', i' < F - 1 → fifoSelections F (k + i') = (j : Int) → i' = i) := by
  refine ⟨?_, fun k => ⟨fifoSelections_formula F hF k, fifoSelections_ne_zero F hF k⟩,
    fun k j hj1 hjF => fifoSelections_window F hF k j hj1 hjF⟩
  intro n a ha
  have := foldlM_option_invariant (stepFIFO F)
    (fun x => x.cursor = fifoSelections F x.evictLog.length ∧
      x.evictLog = (List.range x.evictLog.length).map (fifoSelections F))
    (fun s r s' h1 h2 => stepFIFO_log h2 h1.1 h1.2)
    (trace.take n) ⟨freshSim P F, (F : Int) - 1, []⟩ a ⟨rfl, rfl⟩ ha
  exact this

/-- Witness for C7 amended at concrete inputs: the `FIFO` run of the
trace `0..5` with 3 frames has eviction log `2,1,2` — the successive
cursor selections — and the cursor sequence for `F = 3` satisfies the
formula, never selects 0, and covers each of frames 1 and 2 exactly
once per window of two evictions. -/
theorem C7_fifo_cursor_skips_frame_zero_witness :
    (({ sim := { pageTable := [⟨2, true, 0⟩, ⟨1, true, 0⟩, ⟨0, true, 0⟩,
                               ⟨2, true, 0⟩, ⟨1, true, 0⟩, ⟨2, true, 0⟩],
                 frameTable := [⟨2, 0⟩, ⟨4, 0⟩, ⟨5, 0⟩],
                 freeFrameList := [], faultRate := 6 },
        cursor := 1, evictLog := [2, 1, 2] } : FifoAcc).cursor
        = fifoSelections 3 3 ∧
      ([2, 1, 2] : List Int) = (List.range 3).map (fifoSelections 3)) ∧
    (fifoSelections 3 5 = (3 : Int) - 1 - ((5 % 2 : Nat) : Int) ∧
      fifoSelections 3 5 ≠ 0) ∧
    (∃ i, i < 2 ∧ fifoSelections 3 (0 + i) = (2 : Int) ∧
      ∀ i', i' < 2 → fifoSelections 3 (0 + i') = (2 : Int) → i' = i) := by
  have h := C7_fifo_cursor_skips_frame_zero 6 3 (by omega) [0, 1, 2, 3, 4, 5]
  refine ⟨?_, (h.2.1 5), ?_⟩
  · have h1 := h.1 6
      { sim := { pageTable := [⟨2, true, 0⟩, ⟨1, true, 0⟩, ⟨0, true, 0⟩,
                               ⟨2, true, 0⟩, ⟨1, true, 0⟩, ⟨2, true, 0⟩],
                 frameTable := [⟨2, 0⟩, ⟨4, 0⟩, ⟨5, 0⟩],
                 freeFrameList := [], faultRate := 6 },
        cursor := 1, evictLog := [2, 1, 2] } (by decide)
    exact h1
  · have h2 := h.2.2 0 2 (by omega) (by omega)
    exact_mod_cast h2

theorem getD_set_self [Inhabited α] {l : List α} {i : Nat} (h : i < l.length) (a : α) :
    (l.set i a).getD i default = a := by
  rw [List.getD_eq_getElem?_getD, List.getElem?_set_self h]
  rfl

theorem getD_set_ne [Inhabited α] {l : List α} {i j : Nat} (h : i ≠ j) (a : α) :
    (l.set i a).getD j default = l.getD j default := by
  rw [List.getD_eq_getElem?_getD, List.getD_eq_getElem?_getD, List.getElem?_set_ne h]

theorem getD_mem [Inhabited α] {l : List α} {k : Nat} (hk : k < l.length) :
    l.getD k default ∈ l := by
  rw [List.getD_eq_getElem?_getD, List.getElem?_eq_getElem hk]
  exact List.getElem_mem hk

theorem idx?_some_eq_getD [Inhabited α] {l : List α} {i : Int} {a : α}
    (h : idx? l i = some a) : a = l.getD i.toNat default := by
  obtain ⟨h0, hlt, -⟩ := idx?_some_inv h
  rw [idx?_eq_some_getD h0 hlt] at h
  exact (Option.some.inj h).symm

theorem frameOccupied_iff {s : Sim} {f : Nat} :
    frameOccupied s f = true ↔
      f < s.frameTable.length ∧
      0 ≤ (s.frameTable.getD f default).occupant ∧
      ((s.frameTable.getD f default).occupant).toNat < s.pageTable.length ∧
      (s.pageTable.getD ((s.frameTable.getD f default).occupant).toNat default).valid = true ∧
      (s.pageTable.getD ((s.frameTable.getD f default).occupant).toNat default).frame
        = (f : Int) := by
  unfold frameOccupied
  simp [Bool.and_eq_true, decide_eq_true_eq, and_assoc]

theorem frameOccupied_congr {s t : Sim} (hpt : t.pageTable = s.pageTable)
    (hlen : t.frameTable.length = s.frameTable.length)
    (hocc : ∀ f : Nat, (t.frameTable.getD f default).occupant
      = (s.frameTable.getD f default).occupant) (f : Nat) :
    frameOccupied t f = frameOccupied s f := by
  unfold frameOccupied
  rw [hpt, hlen, hocc f]

theorem bindPage_some_inv {s s' : Sim} {r f : Int} (h : bindPage s r f = some s') :
    0 ≤ r ∧ r.toNat < s.pageTable.length ∧ 0 ≤ f ∧ f.toNat < s.frameTable.length ∧
    s' = bindPageD s r f := by
  unfold bindPage at h
  simp only [Option.bind_eq_bind, Option.bind_eq_some, Option.pure_def,
    Option.some.injEq] at h
  obtain ⟨pte, hpte, pt, hpt, fte, hfte, ft, hft, hs'⟩ := h
  obtain ⟨h0r, hr, -⟩ := idx?_some_inv hpte
  have hpteD := idx?_some_eq_getD hpte
  obtain ⟨h0f, hf, -⟩ := idx?_some_inv hfte
  have hfteD := idx?_some_eq_getD hfte
  obtain ⟨-, -, rfl⟩ := setIdx?_some_inv hpt
  obtain ⟨-, -, rfl⟩ := setIdx?_some_inv hft
  subst hs' hpteD hfteD
  exact ⟨h0r, hr, h0f, hf, rfl⟩

theorem invalidatePage_some_inv {s s' : Sim} {p : Int} (h : invalidatePage s p = some s') :
    0 ≤ p ∧ p.toNat < s.pageTable.length ∧ s' = invalidatePageD s p := by
  unfold invalidatePage at h
  simp only [Option.bind_eq_bind, Option.bind_eq_some, Option.pure_def,
    Option.some.injEq] at h
  obtain ⟨pte, hpte, pt, hpt, hs'⟩ := h
  obtain ⟨h0, hlt, -⟩ := idx?_some_inv hpte
  have hpteD := idx?_some_eq_getD hpte
  obtain ⟨-, -, rfl⟩ := setIdx?_some_inv hpt
  subst hs' hpteD
  exact ⟨h0, hlt, rfl⟩

theorem ruTouch_some_inv {s s' : Sim} {r : Int} (h : ruTouch s r = some s') :
    0 ≤ r ∧ r.toNat < s.pageTable.length ∧
    0 ≤ (s.pageTable.getD r.toNat default).frame ∧
    ((s.pageTable.getD r.toNat default).frame).toNat < s.frameTable.length ∧
    s' = ruTouchD s r := by
  unfold ruTouch at h
  simp only [Option.bind_eq_bind, Option.bind_eq_some, Option.pure_def,
    Option.some.injEq] at h
  obtain ⟨pte, hpte, fte, hfte, ft, hft, hs'⟩ := h
  obtain ⟨h0r, hr, -⟩ := idx?_some_inv hpte
  have hpteD := idx?_some_eq_getD hpte
  subst hpteD
  obtain ⟨h0f, hf, -⟩ := idx?_some_inv hfte
  have hfteD := idx?_some_eq_getD hfte
  subst hfteD
  obtain ⟨-, -, rfl⟩ := setIdx?_some_inv hft
  subst hs'
  exact ⟨h0r, hr, h0f, hf, rfl⟩

theorem ruTouchD_frameOccupied (s : Sim) (r : Int) (f : Nat) :
    frameOccupied (ruTouchD s r) f = frameOccupied s f := by
  refine frameOccupied_congr (t := ruTouchD s r) ?_ ?_ ?_ f
  · rfl
  · show (s.frameTable.set _ _).length = s.frameTable.length
    exact List.length_set _ _ _
  intro g
  show ((s.frameTable.set _ _).getD g default).occupant = _
  by_cases he : ((s.pageTable.getD r.toNat default).frame).toNat = g
  · subst he
    by_cases hlt :
        ((s.pageTable.getD r.toNat default).frame).toNat < s.frameTable.length
    · rw [getD_set_self hlt]
    · rw [List.set_eq_of_length_le (by omega)]
  · rw [getD_set_ne he]

theorem bindPageD_frameOccupied_self {s : Sim} {r f : Int}
    (h0r : 0 ≤ r) (hr : r.toNat < s.pageTable.length)
    (h0f : 0 ≤ f) (hf : f.toNat < s.frameTable.length) :
    frameOccupied (bindPageD s r f) f.toNat = true := by
  rw [frameOccupied_iff]
  have hft : (bindPageD s r f).frameTable.getD f.toNat default
      = { s.frameTable.getD f.toNat default with occupant := r } := by
    show (s.frameTable.set f.toNat _).getD f.toNat default = _
    exact getD_set_self hf _
  rw [hft]
  refine ⟨?_, h0r, ?_, ?_, ?_⟩
  · show f.toNat < (s.frameTable.set _ _).length
    rw [List.length_set]
    exact hf
  · show r.toNat < (s.pageTable.set _ _).length
    rw [List.length_set]
    exact hr
  · show ((s.pageTable.set r.toNat _).getD r.toNat default).valid = true
    rw [getD_set_self hr]
  · show ((s.pageTable.set r.toNat _).getD r.toNat default).frame = ((f.toNat : Nat) : Int)
    rw [getD_set_self hr]
    show f = _
    rw [Int.toNat_of_nonneg h0f]

theorem bindPageD_frameOccupied_other {s : Sim} {r f : Int}
    (hne : f.toNat ≠ 0)
    (hocc : frameOccupied s 0 = true)
    (hrinv : (s.pageTable.getD r.toNat default).valid = false) :
    frameOccupied (bindPageD s r f) 0 = true := by
  rw [frameOccupied_iff] at hocc ⊢
  obtain ⟨hlen0, hq0, hqlt, hvalid, hframe⟩ := hocc
  have hft0 : (bindPageD s r f).frameTable.getD 0 default
      = s.frameTable.getD 0 default := by
    show (s.frameTable.set f.toNat _).getD 0 default = _
    exact getD_set_ne hne _
  rw [hft0]
  have hqr : ((s.frameTable.getD 0 default).occupant).toNat ≠ r.toNat := by
    intro he
    rw [he] at hvalid
    rw [hvalid] at hrinv
    exact absurd hrinv (by simp)
  have hpt : (bindPageD s r f).pageTable.getD
      ((s.frameTable.getD 0 default).occupant).toNat default
      = s.pageTable.getD ((s.frameTable.getD 0 default).occupant).toNat default := by
    show (s.pageTable.set r.toNat _).getD _ default = _
    exact getD_set_ne (fun he => hqr he.symm) _
  rw [hpt]
  refine ⟨?_, hq0, ?_, hvalid, hframe⟩
  · show 0 < (s.frameTable.set _ _).length
    rw [List.length_set]
    exact hlen0
  · show _ < (s.pageTable.set _ _).length
    rw [List.length_set]
    exact hqlt

theorem evictBind_some_inv {s s' : Sim} {r f : Int} (h : evictBind s r f = some s') :
    0 ≤ r ∧ r.toNat < s.pageTable.length ∧ 0 ≤ f ∧ f.toNat < s.frameTable.length ∧
    s' = { bindPageD s r f with faultRate := s.faultRate + 1 } := by
  unfold evictBind at h
  simp only [Option.bind_eq_bind, Option.bind_eq_some, Option.pure_def,
    Option.some.injEq] at h
  obtain ⟨s1, hs1, hs'⟩ := h
  obtain ⟨h0r, hr, h0f, hf, rfl⟩ := bindPage_some_inv hs1
  exact ⟨h0r, hr, h0f, hf, hs'.symm⟩

theorem allocFromFreeList_some_inv {s s' : Sim} {r : Int}
    (h : allocFromFreeList s r = some s') :
    0 ≤ r ∧ r.toNat < s.pageTable.length ∧ 0 ≤ s.freeFrameList.getLastD 0 ∧
    (s.freeFrameList.getLastD 0).toNat < s.frameTable.length ∧
    s' = { bindPageD { s with freeFrameList := s.freeFrameList.dropLast } r
             (s.freeFrameList.getLastD 0) with faultRate := s.faultRate + 1 } := by
  unfold allocFromFreeList at h
  simp only [Option.bind_eq_bind, Option.bind_eq_some, Option.pure_def,
    Option.some.injEq] at h
  obtain ⟨s1, hs1, hs'⟩ := h
  obtain ⟨h0r, hr, h0f, hf, rfl⟩ := bindPage_some_inv hs1
  exact ⟨h0r, hr, h0f, hf, hs'.symm⟩

theorem replaceStale_some_inv {s s' : Sim} {r f old : Int}
    (h : replaceStale s r f old = some s') :
    0 ≤ f ∧ f.toNat < s.frameTable.length ∧
    0 ≤ (s.frameTable.getD f.toNat default).occupant ∧
    ((s.frameTable.getD f.toNat default).occupant).toNat < s.pageTable.length ∧
    0 ≤ r ∧ r.toNat < s.pageTable.length ∧
    s' = { bindPageD (invalidatePageD s (s.frameTable.getD f.toNat default).occupant) r f
             with
           freeFrameList := s.freeFrameList ++ [old],
           faultRate := s.faultRate + 1 } := by
  unfold replaceStale at h
  simp only [Option.bind_eq_bind, Option.bind_eq_some, Option.pure_def,
    Option.some.injEq] at h
  obtain ⟨fte, hfte, s1, hs1, s2, hs2, hs'⟩ := h
  obtain ⟨h0f, hff, -⟩ := idx?_some_inv hfte
  have hfteD := idx?_some_eq_getD hfte
  subst hfteD
  obtain ⟨h0q, hq, rfl⟩ := invalidatePage_some_inv hs1
  obtain ⟨h0r, hr, h0f2, hf2, rfl⟩ := bindPage_some_inv hs2
  refine ⟨h0f, hff, h0q, hq, h0r, ?_, hs'.symm⟩
  simpa [invalidatePageD, List.length_set] using hr

theorem getLastD_mem {l : List Int} (h : l ≠ []) (d : Int) : l.getLastD d ∈ l := by
  rw [List.getLastD_eq_getLast?, List.getLast?_eq_getLast l h]
  exact List.getLast_mem h

theorem mem_dropLast_of_mem_ne {l : List Int} {x : Int} (h : l ≠ []) (hx : x ∈ l)
    (hne : x ≠ l.getLastD 0) : x ∈ l.dropLast := by
  have hsplit := List.dropLast_append_getLast h
  rw [← hsplit] at hx
  rcases List.mem_append.mp hx with h1 | h1
  · exact h1
  · exfalso
    apply hne
    rw [List.getLastD_eq_getLast?, List.getLast?_eq_getLast l h]
    simpa using h1

theorem scanInt_eq_zero {ft : List FTE} (ha : ∀ e ∈ ft, e.aux = 0) (mru : Bool) :
    (if mru = true then ((scanMax ft : Nat) : Int) else ((scanMin ft : Nat) : Int)) = 0 := by
  cases mru
  · simp [scanMin_eq_zero ha]
  · simp [scanMax_eq_zero ha]

theorem stepRU_L {mru : Bool} {s s' : Sim} {r : Int}
    (h : stepRU mru s r = some s') (ha : AuxZero s)
    (hL : (0 : Int) ∈ s.freeFrameList ∨ frameOccupied s 0 = true) :
    (0 : Int) ∈ s'.freeFrameList ∨ frameOccupied s' 0 = true := by
  unfold stepRU at h
  simp only [Option.bind_eq_some] at h
  obtain ⟨s1, hs1, htouch⟩ := h
  obtain ⟨-, -, -, -, rfl⟩ := ruTouch_some_inv htouch
  have hfl' : (ruTouchD s1 r).freeFrameList = s1.freeFrameList := rfl
  rw [hfl', ruTouchD_frameOccupied s1 r 0]
  split at hs1
  · exact absurd hs1 (by simp)
  · next pte hpte =>
    have hpteD := idx?_some_eq_getD hpte
    split at hs1
    · -- invalid reference
      next hv =>
      rw [scanInt_eq_zero ha mru] at hs1
      split at hs1
      · -- free list empty: evict at the scanned frame, which is frame 0
        obtain ⟨h0r, hr, h0f, hf, rfl⟩ := evictBind_some_inv hs1
        right
        show frameOccupied (bindPageD s r (0 : Int)) 0 = true
        exact bindPageD_frameOccupied_self h0r hr h0f hf
      · -- pop from the back of the free list
        next hfl0 =>
        obtain ⟨h0r, hr, h0f, hf, rfl⟩ := allocFromFreeList_some_inv hs1
        have hne : s.freeFrameList ≠ [] := by
          intro hc
          exact hfl0 (by rw [hc]; rfl)
        by_cases hlast : s.freeFrameList.getLastD 0 = 0
        · right
          show frameOccupied
            (bindPageD { s with freeFrameList := s.freeFrameList.dropLast } r
              (s.freeFrameList.getLastD 0)) 0 = true
          have hf' := hf
          rw [hlast] at hf'
          rw [hlast]
          exact bindPageD_frameOccupied_self h0r hr (le_refl 0) hf'
        · rcases hL with h0fl | h0occ
          · left
            show (0 : Int) ∈ s.freeFrameList.dropLast
            exact mem_dropLast_of_mem_ne hne h0fl (fun hc => hlast hc.symm)
          · right
            show frameOccupied
              (bindPageD { s with freeFrameList := s.freeFrameList.dropLast } r
                (s.freeFrameList.getLastD 0)) 0 = true
            refine bindPageD_frameOccupied_other ?_ h0occ ?_
            · intro hc
              apply hlast
              have h00 := Int.toNat_of_nonneg h0f
              rw [hc] at h00
              exact h00.symm
            · rw [← hpteD]
              exact hv
    · -- valid reference
      next hv =>
      split at hs1
      · exact absurd hs1 (by simp)
      · -- hit: tables unchanged
        cases hs1
        exact hL
      · -- stale reference: replace at the scanned frame, which is frame 0
        rw [scanInt_eq_zero ha mru] at hs1
        obtain ⟨h0f, hff, h0q, hq, h0r, hr, rfl⟩ := replaceStale_some_inv hs1
        right
        show frameOccupied
          (bindPageD (invalidatePageD s
            ((s.frameTable.getD ((0 : Int)).toNat default).occupant)) r (0 : Int)) 0 = true
        refine bindPageD_frameOccupied_self h0r ?_ (by omega) ?_
        · simpa [invalidatePageD, List.length_set] using hr
        · simpa [invalidatePageD] using hff

/-- C2: whenever the LRU run has reached a state with no free frame
remaining — the state from which both eviction sites (the invalid-bit
fault path and the stale-reference path) pick their victim with the
same left-to-right scan — the frame the LRU scan selects is occupied
and maximises the recency (auxiliary) column over the whole frame
table, with every strictly lower frame index holding a strictly
smaller value (lowest-index tie-break).  In every reachable such state
all recency counters are equal (0), so the scan's choice, frame 0, is
exactly the largest-counter frame with the lowest-index tie-break. -/
theorem C2_lru_eviction_rule (P F : Nat) (hF : 1 ≤ F) (trace : List Int) (n : Nat)
    (s : Sim)
    (hrun : runRU P F false (trace.take n) = some s)
    (hfl : s.freeFrameList = []) :
    frameOccupied s (scanMin s.frameTable) = true ∧
    IsLruSpecChoice s.frameTable (scanMin s.frameTable) := by
  have hinv : AuxZero s ∧ ((0 : Int) ∈ s.freeFrameList ∨ frameOccupied s 0 = true) := by
    refine foldlM_option_invariant (stepRU false)
      (fun x => AuxZero x ∧ ((0 : Int) ∈ x.freeFrameList ∨ frameOccupied x 0 = true))
      (fun x a x' h1 h2 => ⟨stepRU_auxZero h2 h1.1, stepRU_L h2 h1.1 h1.2⟩)
      (trace.take n) (freshSim P F) s ⟨freshSim_auxZero P F, Or.inl ?_⟩ hrun
    exact List.mem_map.mpr ⟨0, List.mem_range.mpr (by omega), rfl⟩
  have ha := hinv.1
  have hocc : frameOccupied s 0 = true := by
    rcases hinv.2 with h | h
    · rw [hfl] at h
      exact absurd h (List.not_mem_nil 0)
    · exact h
  have hscan : scanMin s.frameTable = 0 := scanMin_eq_zero ha
  have hlen0 : 0 < s.frameTable.length := (frameOccupied_iff.mp hocc).1
  refine ⟨by rw [hscan]; exact hocc, ?_⟩
  rw [hscan]
  refine ⟨hlen0, ?_, ?_⟩
  · intro k hk
    have h1 : (s.frameTable.getD k default).aux = 0 := ha _ (getD_mem hk)
    have h2 : (s.frameTable.getD 0 default).aux = 0 := ha _ (getD_mem hlen0)
    rw [h1, h2]
  · intro k hk
    exact absurd hk (Nat.not_lt_zero k)

/-- Witness for C2 at a concrete input: after the LRU run of the
single reference 0 with one frame, the free frame list is empty (any
further fault, invalid or stale, must evict), and the scan's choice
is an occupied maximal-recency, lowest-index frame. -/
theorem C2_lru_eviction_rule_witness :
    frameOccupied
        { pageTable := [⟨0, true, 0⟩, ⟨0, false, 0⟩], frameTable := [⟨0, 0⟩],
          freeFrameList := [], faultRate := 1 } (scanMin [⟨0, 0⟩]) = true ∧
    IsLruSpecChoice [⟨0, 0⟩] (scanMin [⟨0, 0⟩]) :=
  C2_lru_eviction_rule 2 1 (by omega) [0, 1] 1
    { pageTable := [⟨0, true, 0⟩, ⟨0, false, 0⟩], frameTable := [⟨0, 0⟩],
      freeFrameList := [], faultRate := 1 }
    (by decide) rfl

theorem foldlM_total {σ α : Type _} (step : σ → α → Option σ) (Inv : σ → Prop)
    (Q : α → Prop)
    (hstep : ∀ s a, Inv s → Q a → ∃ s', step s a = some s' ∧ Inv s') :
    ∀ (l : List α) (s : σ), Inv s → (∀ a ∈ l, Q a) →
      ∃ s', l.foldlM step s = some s' ∧ Inv s' := by
  intro l
  induction l with
  | nil => intro s hs _; exact ⟨s, rfl, hs⟩
  | cons a t ih =>
    intro s hs hQ
    obtain ⟨s1, hs1, hs1'⟩ := hstep s a hs (hQ a (List.mem_cons_self a t))
    obtain ⟨s', hs', hinv⟩ := ih s1 hs1' (fun b hb => hQ b (List.mem_cons_of_mem a hb))
    refine ⟨s', ?_, hinv⟩
    rw [List.foldlM_cons, hs1]
    simpa using hs'

theorem scanMinLoop_lt {B : Nat} : ∀ (l : List FTE) (m : Int) (k v : Nat),
    v < B → k + l.length ≤ B → scanMinLoop l m k v < B := by
  intro l
  induction l with
  | nil => intro m k v hv _; exact hv
  | cons e rest ih =>
    intro m k v hv hk
    unfold scanMinLoop
    by_cases hc : e.aux < m
    · rw [if_pos hc]
      exact ih e.aux (k + 1) k (by simp at hk; omega) (by simp at hk; omega)
    · rw [if_neg hc]
      exact ih m (k + 1) v hv (by simp at hk; omega)

theorem scanMaxLoop_lt {B : Nat} : ∀ (l : List FTE) (m : Int) (k v : Nat),
    v < B → k + l.length ≤ B → scanMaxLoop l m k v < B := by
  intro l
  induction l with
  | nil => intro m k v hv _; exact hv
  | cons e rest ih =>
    intro m k v hv hk
    unfold scanMaxLoop
    by_cases hc : m < e.aux
    · rw [if_pos hc]
      exact ih e.aux (k + 1) k (by simp at hk; omega) (by simp at hk; omega)
    · rw [if_neg hc]
      exact ih m (k + 1) v hv (by simp at hk; omega)

theorem scanMin_lt {ft : List FTE} (h : ft ≠ []) : scanMin ft < ft.length := by
  cases ft with
  | nil => exact absurd rfl h
  | cons e rest =>
    unfold scanMin
    exact scanMinLoop_lt rest e.aux 1 0 (by simp) (by simp only [List.length_cons]; omega)

theorem scanMax_lt {ft : List FTE} (h : ft ≠ []) : scanMax ft < ft.length := by
  cases ft with
  | nil => exact absurd rfl h
  | cons e rest =>
    unfold scanMax
    exact scanMaxLoop_lt rest e.aux 1 0 (by simp) (by simp only [List.length_cons]; omega)

theorem identifyPageToRemove_lt (poolSize : Nat) (ft : List FTE) (refString : List Int)
    (hft : ft ≠ []) : identifyPageToRemove poolSize ft refString < ft.length := by
  have h0 : 0 < ft.length := List.length_pos.mpr hft
  rcases argmaxLoop_spec (ft.map fun e => futureDistance poolSize refString e.occupant)
      (-1) 0 0 with ⟨h1, h2⟩ | ⟨k, hk, he, -, -, -⟩
  · exfalso
    have hlen : 0 < (ft.map fun e => futureDistance poolSize refString e.occupant).length := by
      rw [List.length_map]
      exact h0
    have ha := h2 0 hlen
    rw [getD_map_fd h0] at ha
    have hb := futureDistance_nonneg poolSize refString (ft.getD 0 default).occupant
    omega
  · unfold identifyPageToRemove
    rw [he, Nat.zero_add]
    rw [List.length_map] at hk
    exact hk

theorem bindPageD_WF {s : Sim} {r f : Int} (hWF : SimWF s)
    (h0r : 0 ≤ r) (hr : r.toNat < s.pageTable.length)
    (h0f : 0 ≤ f) (hf : f.toNat < s.frameTable.length) :
    SimWF (bindPageD s r f) := by
  obtain ⟨hpt, hft, hfl⟩ := hWF
  have hlf : (bindPageD s r f).frameTable.length = s.frameTable.length := by
    show (s.frameTable.set _ _).length = _
    exact List.length_set _ _ _
  have hlp : (bindPageD s r f).pageTable.length = s.pageTable.length := by
    show (s.pageTable.set _ _).length = _
    exact List.length_set _ _ _
  refine ⟨?_, ?_, ?_⟩
  · intro e he
    rw [hlf]
    rcases List.mem_or_eq_of_mem_set he with h1 | h1
    · exact hpt e h1
    · rw [h1]
      exact ⟨h0f, hf⟩
  · intro e he
    rw [hlp]
    rcases List.mem_or_eq_of_mem_set he with h1 | h1
    · exact hft e h1
    · rw [h1]
      exact ⟨h0r, hr⟩
  · intro x hx
    rw [hlf]
    exact hfl x hx

theorem invalidatePageD_WF {s : Sim} {p : Int} (hWF : SimWF s)
    (hp : p.toNat < s.pageTable.length) :
    SimWF (invalidatePageD s p) := by
  obtain ⟨hpt, hft, hfl⟩ := hWF
  have hlp : (invalidatePageD s p).pageTable.length = s.pageTable.length := by
    show (s.pageTable.set _ _).length = _
    exact List.length_set _ _ _
  refine ⟨?_, ?_, ?_⟩
  · intro e he
    rcases List.mem_or_eq_of_mem_set he with h1 | h1
    · exact hpt e h1
    · rw [h1]
      have hb := hpt _ (getD_mem hp)
      exact ⟨hb.1, hb.2⟩
  · intro e he
    rw [hlp]
    exact hft e he
  · intro x hx
    exact hfl x hx

theorem ruTouchD_WF {s : Sim} {r : Int} (hWF : SimWF s) :
    SimWF (ruTouchD s r) := by
  obtain ⟨hpt, hft, hfl⟩ := hWF
  have hlf : (ruTouchD s r).frameTable.length = s.frameTable.length := by
    show (s.frameTable.set _ _).length = _
    exact List.length_set _ _ _
  refine ⟨?_, ?_, ?_⟩
  · intro e he
    rw [hlf]
    exact hpt e he
  · intro e he
    by_cases hb : ((s.pageTable.getD r.toNat default).frame).toNat < s.frameTable.length
    · rcases List.mem_or_eq_of_mem_set he with h1 | h1
      · exact hft e h1
      · rw [h1]
        have hx := hft _ (getD_mem hb)
        exact ⟨hx.1, hx.2⟩
    · have he' : e ∈ s.frameTable.set
          ((s.pageTable.getD r.toNat default).frame).toNat
          { s.frameTable.getD ((s.pageTable.getD r.toNat default).frame).toNat default
              with aux := 0 } := he
      rw [List.set_eq_of_length_le (by omega)] at he'
      exact hft e he'
  · intro x hx
    rw [hlf]
    exact hfl x hx

theorem SimWF_fault {y : Sim} (h : SimWF y) (n : Nat) :
    SimWF { y with faultRate := n } :=
  ⟨fun e he => h.1 e he, fun e he => h.2.1 e he, fun x hx => h.2.2 x hx⟩

theorem SimWF_fl {y : Sim} (h : SimWF y) {l : List Int}
    (hl : ∀ x ∈ l, 0 ≤ x ∧ x.toNat < y.frameTable.length) (n : Nat) :
    SimWF { y with freeFrameList := l, faultRate := n } :=
  ⟨fun e he => h.1 e he, fun e he => h.2.1 e he, fun x hx => hl x hx⟩

theorem SimWF_dropLast {s : Sim} (h : SimWF s) :
    SimWF { s with freeFrameList := s.freeFrameList.dropLast } :=
  ⟨fun e he => h.1 e he, fun e he => h.2.1 e he,
   fun x hx => h.2.2 x ((List.dropLast_sublist _).subset hx)⟩

theorem ruTouch_total {s : Sim} {r : Int} (hWF : SimWF s)
    (h0r : 0 ≤ r) (hr : r.toNat < s.pageTable.length) :
    ruTouch s r = some (ruTouchD s r) := by
  have hpte := hWF.1 _ (getD_mem hr)
  exact ruTouch_eq h0r hr hpte.1 hpte.2

theorem stepRU_eq_of {mru : Bool} {s : Sim} {r : Int} {pte : PTE}
    (hpte : idx? s.pageTable r = some pte) :
    stepRU mru s r =
      (if pte.valid = false then
        (if s.freeFrameList.length = 0 then
          evictBind s r (if mru = true then ((scanMax s.frameTable : Nat) : Int)
            else ((scanMin s.frameTable : Nat) : Int))
        else allocFromFreeList s r)
      else
        match isInMemory s.frameTable pte.frame r with
        | none => none
        | some true => some s
        | some false =>
          replaceStale s r (if mru = true then ((scanMax s.frameTable : Nat) : Int)
            else ((scanMin s.frameTable : Nat) : Int)) pte.frame).bind
        (fun s' => ruTouch s' r) := by
  unfold stepRU
  rw [hpte]

theorem stepRU_total {mru : Bool} {s : Sim} {r : Int}
    (hWF : SimWF s) (hfpos : 0 < s.frameTable.length)
    (h0r : 0 ≤ r) (hr : r.toNat < s.pageTable.length) :
    ∃ s', stepRU mru s r = some s' ∧ SimWF s' ∧
      s'.pageTable.length = s.pageTable.length ∧
      s'.frameTable.length = s.frameTable.length := by
  have hftne : s.frameTable ≠ [] := by
    intro hc
    rw [hc] at hfpos
    simp at hfpos
  have hscan0 : 0 ≤ (if mru = true then ((scanMax s.frameTable : Nat) : Int)
      else ((scanMin s.frameTable : Nat) : Int)) := by
    cases mru <;> simp
  have hscanlt : ((if mru = true then ((scanMax s.frameTable : Nat) : Int)
      else ((scanMin s.frameTable : Nat) : Int))).toNat < s.frameTable.length := by
    cases mru
    · simpa using scanMin_lt hftne
    · simpa using scanMax_lt hftne
  have hpte := idx?_eq_some_getD h0r hr
  rw [stepRU_eq_of hpte]
  by_cases hval : (s.pageTable.getD r.toNat default).valid = false
  · rw [if_pos hval]
    by_cases hfl : s.freeFrameList.length = 0
    · rw [if_pos hfl, evictBind_eq h0r hr hscan0 hscanlt, Option.some_bind]
      have hWF1 : SimWF { bindPageD s r (if mru = true then ((scanMax s.frameTable : Nat) : Int)
          else ((scanMin s.frameTable : Nat) : Int)) with faultRate := s.faultRate + 1 } :=
        SimWF_fault (bindPageD_WF hWF h0r hr hscan0 hscanlt) _
      have hr1 : r.toNat < ({ bindPageD s r (if mru = true then ((scanMax s.frameTable : Nat) : Int)
          else ((scanMin s.frameTable : Nat) : Int)) with
          faultRate := s.faultRate + 1 } : Sim).pageTable.length := by
        show r.toNat < (s.pageTable.set _ _).length
        rw [List.length_set]
        exact hr
      rw [ruTouch_total hWF1 h0r hr1]
      refine ⟨_, rfl, ruTouchD_WF hWF1, ?_, ?_⟩
      · simp only [ruTouchD, bindPageD, invalidatePageD, List.length_set]
      · simp only [ruTouchD, bindPageD, invalidatePageD, List.length_set]
    · have hflne : s.freeFrameList ≠ [] := by
        intro hc
        exact hfl (by rw [hc]; rfl)
      have hlast := hWF.2.2 _ (getLastD_mem hflne 0)
      rw [if_neg hfl, allocFromFreeList_eq h0r hr hlast.1 hlast.2, Option.some_bind]
      have hWF1 : SimWF { bindPageD { s with freeFrameList := s.freeFrameList.dropLast } r
          (s.freeFrameList.getLastD 0) with faultRate := s.faultRate + 1 } :=
        SimWF_fault (bindPageD_WF (SimWF_dropLast hWF) h0r hr hlast.1 hlast.2) _
      have hr1 : r.toNat < ({ bindPageD { s with freeFrameList := s.freeFrameList.dropLast }
          r (s.freeFrameList.getLastD 0) with
          faultRate := s.faultRate + 1 } : Sim).pageTable.length := by
        show r.toNat < (s.pageTable.set _ _).length
        rw [List.length_set]
        exact hr
      rw [ruTouch_total hWF1 h0r hr1]
      refine ⟨_, rfl, ruTouchD_WF hWF1, ?_, ?_⟩
      · simp only [ruTouchD, bindPageD, invalidatePageD, List.length_set]
      · simp only [ruTouchD, bindPageD, invalidatePageD, List.length_set]
  · rw [if_neg hval]
    have hpf := hWF.1 _ (getD_mem hr)
    rw [isInMemory_eq hpf.1 hpf.2]
    by_cases hmem :
        (s.frameTable.getD ((s.pageTable.getD r.toNat default).frame).toNat default).occupant
          = r
    · rw [decide_eq_true hmem]
      show ∃ s', (some s).bind (fun s' => ruTouch s' r) = some s' ∧ _
      rw [Option.some_bind, ruTouch_total hWF h0r hr]
      refine ⟨_, rfl, ruTouchD_WF hWF, rfl, ?_⟩
      simp only [ruTouchD, List.length_set]
    · rw [decide_eq_false hmem]
      have hocc := hWF.2.1 _ (getD_mem hscanlt)
      rw [replaceStale_eq hscan0 hscanlt hocc.1 hocc.2 h0r hr, Option.some_bind]
      have hWF1 : SimWF { bindPageD (invalidatePageD s
          ((s.frameTable.getD ((if mru = true then ((scanMax s.frameTable : Nat) : Int)
            else ((scanMin s.frameTable : Nat) : Int))).toNat default).occupant)) r
          (if mru = true then ((scanMax s.frameTable : Nat) : Int)
            else ((scanMin s.frameTable : Nat) : Int)) with
          freeFrameList := s.freeFrameList ++ [(s.pageTable.getD r.toNat default).frame],
          faultRate := s.faultRate + 1 } := by
        have hbase := bindPageD_WF (s := invalidatePageD s
            ((s.frameTable.getD ((if mru = true then ((scanMax s.frameTable : Nat) : Int)
              else ((scanMin s.frameTable : Nat) : Int))).toNat default).occupant))
          (invalidatePageD_WF hWF hocc.2) h0r
          (by simpa [invalidatePageD, List.length_set] using hr) hscan0
          (by simpa [invalidatePageD] using hscanlt)
        refine SimWF_fl hbase ?_ _
        intro x hx
        rcases List.mem_append.mp hx with h1 | h1
        · have hb := hWF.2.2 x h1
          refine ⟨hb.1, ?_⟩
          show x.toNat < ((invalidatePageD s _).frameTable.set _ _).length
          rw [List.length_set]
          exact hb.2
        · have hx1 : x = (s.pageTable.getD r.toNat default).frame := by simpa using h1
          subst hx1
          refine ⟨hpf.1, ?_⟩
          show _ < ((invalidatePageD s _).frameTable.set _ _).length
          rw [List.length_set]
          exact hpf.2
      have hr1 : r.toNat < ({ bindPageD (invalidatePageD s
          ((s.frameTable.getD ((if mru = true then ((scanMax s.frameTable : Nat) : Int)
            else ((scanMin s.frameTable : Nat) : Int))).toNat default).occupant)) r
          (if mru = true then ((scanMax s.frameTable : Nat) : Int)
            else ((scanMin s.frameTable : Nat) : Int)) with
          freeFrameList := s.freeFrameList ++ [(s.pageTable.getD r.toNat default).frame],
          faultRate := s.faultRate + 1 } : Sim).pageTable.length := by
        show r.toNat < ((s.pageTable.set _ _).set _ _).length
        rw [List.length_set, List.length_set]
        exact hr
      rw [ruTouch_total hWF1 h0r hr1]
      refine ⟨_, rfl, ruTouchD_WF hWF1, ?_, ?_⟩
      · simp only [ruTouchD, bindPageD, invalidatePageD, List.length_set]
      · simp only [ruTouchD, bindPageD, invalidatePageD, List.length_set]

theorem replaceStaleD_WF {s : Sim} {r f old : Int} (hWF : SimWF s)
    (h0r : 0 ≤ r) (hr : r.toNat < s.pageTable.length)
    (h0f : 0 ≤ f) (hf : f.toNat < s.frameTable.length)
    (h0o : 0 ≤ old) (ho : old.toNat < s.frameTable.length) :
    SimWF { bindPageD (invalidatePageD s ((s.frameTable.getD f.toNat default).occupant)) r f
        with
        freeFrameList := s.freeFrameList ++ [old],
        faultRate := s.faultRate + 1 } := by
  have hocc := hWF.2.1 _ (getD_mem hf)
  have hbase := bindPageD_WF
    (s := invalidatePageD s ((s.frameTable.getD f.toNat default).occupant))
    (invalidatePageD_WF hWF hocc.2) h0r
    (by simpa [invalidatePageD, List.length_set] using hr) h0f
    (by simpa [invalidatePageD] using hf)
  refine SimWF_fl hbase ?_ _
  intro x hx
  rcases List.mem_append.mp hx with h1 | h1
  · have hb := hWF.2.2 x h1
    refine ⟨hb.1, ?_⟩
    show x.toNat < ((invalidatePageD s _).frameTable.set _ _).length
    rw [List.length_set]
    exact hb.2
  · have hx1 : x = old := by simpa using h1
    subst hx1
    refine ⟨h0o, ?_⟩
    show _ < ((invalidatePageD s _).frameTable.set _ _).length
    rw [List.length_set]
    exact ho

theorem stepRAN_eq_of {rs : Nat → Int} {s : Sim} {n : Nat} {r : Int} {pte : PTE}
    (hpte : idx? s.pageTable r = some pte) :
    stepRAN rs (s, n) r =
      (if pte.valid = false then
        if s.freeFrameList.length = 0 then
          (evictBind s r (rs n)).map (fun s' => (s', n + 1))
        else
          (allocFromFreeList s r).map (fun s' => (s', n))
      else
        match isInMemory s.frameTable pte.frame r with
        | none => none
        | some true => some (s, n)
        | some false =>
          (replaceStale s r (rs n) pte.frame).map (fun s' => (s', n + 1))) := by
  unfold stepRAN
  dsimp only
  rw [hpte]

theorem stepRAN_total {rs : Nat → Int} {s : Sim} {n : Nat} {r : Int}
    (hWF : SimWF s)
    (h0d : 0 ≤ rs n) (hd : (rs n).toNat < s.frameTable.length)
    (h0r : 0 ≤ r) (hr : r.toNat < s.pageTable.length) :
    ∃ b, stepRAN rs (s, n) r = some b ∧ SimWF b.1 ∧
      b.1.pageTable.length = s.pageTable.length ∧
      b.1.frameTable.length = s.frameTable.length := by
  have hpte := idx?_eq_some_getD h0r hr
  rw [stepRAN_eq_of hpte]
  by_cases hval : (s.pageTable.getD r.toNat default).valid = false
  · rw [if_pos hval]
    by_cases hfl : s.freeFrameList.length = 0
    · rw [if_pos hfl, evictBind_eq h0r hr h0d hd, Option.map_some']
      refine ⟨_, rfl, SimWF_fault (bindPageD_WF hWF h0r hr h0d hd) _, ?_, ?_⟩
      · simp only [bindPageD, List.length_set]
      · simp only [bindPageD, List.length_set]
    · have hflne : s.freeFrameList ≠ [] := by
        intro hc
        exact hfl (by rw [hc]; rfl)
      have hlast := hWF.2.2 _ (getLastD_mem hflne 0)
      rw [if_neg hfl, allocFromFreeList_eq h0r hr hlast.1 hlast.2, Option.map_some']
      refine ⟨_, rfl,
        SimWF_fault (bindPageD_WF (SimWF_dropLast hWF) h0r hr hlast.1 hlast.2) _, ?_, ?_⟩
      · simp only [bindPageD, List.length_set]
      · simp only [bindPageD, List.length_set]
  · rw [if_neg hval]
    have hpf := hWF.1 _ (getD_mem hr)
    rw [isInMemory_eq hpf.1 hpf.2]
    by_cases hmem :
        (s.frameTable.getD ((s.pageTable.getD r.toNat default).frame).toNat default).occupant
          = r
    · rw [decide_eq_true hmem]
      exact ⟨(s, n), rfl, hWF, rfl, rfl⟩
    · rw [decide_eq_false hmem,
        replaceStale_eq h0d hd (hWF.2.1 _ (getD_mem hd)).1 (hWF.2.1 _ (getD_mem hd)).2 h0r hr,
        Option.map_some']
      refine ⟨_, rfl, replaceStaleD_WF hWF h0r hr h0d hd hpf.1 hpf.2, ?_, ?_⟩
      · simp only [bindPageD, invalidatePageD, List.length_set]
      · simp only [bindPageD, invalidatePageD, List.length_set]

theorem stepOPT_eq_of {poolSize : Nat} {s : Sim} {refString : List Int} {r : Int} {pte : PTE}
    (hpte : idx? s.pageTable r = some pte) :
    stepOPT poolSize (s, refString) r =
      ((if pte.valid = false then
        if s.freeFrameList.length = 0 then
          evictBind s r (identifyPageToRemove poolSize s.frameTable refString)
        else
          allocFromFreeList s r
      else
        match isInMemory s.frameTable pte.frame r with
        | none => none
        | some true => some s
        | some false =>
          replaceStale s r (identifyPageToRemove poolSize s.frameTable refString)
            pte.frame) : Option Sim).map (fun s' => (s', refString.tail)) := by
  unfold stepOPT
  dsimp only
  rw [hpte]

theorem stepOPT_total {poolSize : Nat} {s : Sim} {refString : List Int} {r : Int}
    (hWF : SimWF s) (hfpos : 0 < s.frameTable.length)
    (h0r : 0 ≤ r) (hr : r.toNat < s.pageTable.length) :
    ∃ b, stepOPT poolSize (s, refString) r = some b ∧ SimWF b.1 ∧
      b.1.pageTable.length = s.pageTable.length ∧
      b.1.frameTable.length = s.frameTable.length := by
  have hftne : s.frameTable ≠ [] := by
    intro hc
    rw [hc] at hfpos
    simp at hfpos
  have h0d : 0 ≤ ((identifyPageToRemove poolSize s.frameTable refString : Nat) : Int) :=
    Int.natCast_nonneg _
  have hd : (((identifyPageToRemove poolSize s.frameTable refString : Nat) : Int)).toNat
      < s.frameTable.length := by
    rw [Int.toNat_natCast]
    exact identifyPageToRemove_lt poolSize s.frameTable refString hftne
  have hpte := idx?_eq_some_getD h0r hr
  rw [stepOPT_eq_of hpte]
  by_cases hval : (s.pageTable.getD r.toNat default).valid = false
  · rw [if_pos hval]
    by_cases hfl : s.freeFrameList.length = 0
    · rw [if_pos hfl, evictBind_eq h0r hr h0d hd, Option.map_some']
      refine ⟨_, rfl, SimWF_fault (bindPageD_WF hWF h0r hr h0d hd) _, ?_, ?_⟩
      · simp only [bindPageD, List.length_set]
      · simp only [bindPageD, List.length_set]
    · have hflne : s.freeFrameList ≠ [] := by
        intro hc
        exact hfl (by rw [hc]; rfl)
      have hlast := hWF.2.2 _ (getLastD_mem hflne 0)
      rw [if_neg hfl, allocFromFreeList_eq h0r hr hlast.1 hlast.2, Option.map_some']
      refine ⟨_, rfl,
        SimWF_fault (bindPageD_WF (SimWF_dropLast hWF) h0r hr hlast.1 hlast.2) _, ?_, ?_⟩
      · simp only [bindPageD, List.length_set]
      · simp only [bindPageD, List.length_set]
  · rw [if_neg hval]
    have hpf := hWF.1 _ (getD_mem hr)
    rw [isInMemory_eq hpf.1 hpf.2]
    by_cases hmem :
        (s.frameTable.getD ((s.pageTable.getD r.toNat default).frame).toNat default).occupant
          = r
    · rw [decide_eq_true hmem]
      exact ⟨(s, refString.tail), rfl, hWF, rfl, rfl⟩
    · rw [decide_eq_false hmem,
        replaceStale_eq h0d hd (hWF.2.1 _ (getD_mem hd)).1 (hWF.2.1 _ (getD_mem hd)).2 h0r hr,
        Option.map_some']
      refine ⟨_, rfl, replaceStaleD_WF hWF h0r hr h0d hd hpf.1 hpf.2, ?_, ?_⟩
      · simp only [bindPageD, invalidatePageD, List.length_set]
      · simp only [bindPageD, invalidatePageD, List.length_set]

theorem freshSim_WF {P F : Nat} (hP : 0 < P) (hF : 0 < F) : SimWF (freshSim P F) := by
  refine ⟨?_, ?_, ?_⟩
  · intro e he
    have h1 : e = ⟨0, false, 0⟩ := List.eq_of_mem_replicate he
    subst h1
    refine ⟨le_refl 0, ?_⟩
    show (0 : Int).toNat < (List.replicate F (⟨0, 0⟩ : FTE)).length
    rw [List.length_replicate]
    exact hF
  · intro e he
    have h1 : e = ⟨0, 0⟩ := List.eq_of_mem_replicate he
    subst h1
    refine ⟨le_refl 0, ?_⟩
    show (0 : Int).toNat < (List.replicate P (⟨0, false, 0⟩ : PTE)).length
    rw [List.length_replicate]
    exact hP
  · intro x hx
    obtain ⟨k, hk, rfl⟩ := List.mem_map.mp hx
    have hk' := List.mem_range.mp hk
    refine ⟨Int.natCast_nonneg k, ?_⟩
    show (Int.ofNat k).toNat < (List.replicate F (⟨0, 0⟩ : FTE)).length
    rw [List.length_replicate]
    simpa using hk'

theorem freshSim_WFF {P F : Nat} (hP : 0 < P) (hF : 0 < F) : SimWFF (freshSim P F) := by
  obtain ⟨h1, h2, h3⟩ := freshSim_WF hP hF
  exact ⟨h1, fun e he => Or.inl (h2 e he), h3⟩

theorem SimWFF_fault {y : Sim} (h : SimWFF y) (n : Nat) :
    SimWFF { y with faultRate := n } :=
  ⟨fun e he => h.1 e he, fun e he => h.2.1 e he, fun x hx => h.2.2 x hx⟩

theorem SimWFF_dropLast {s : Sim} (h : SimWFF s) :
    SimWFF { s with freeFrameList := s.freeFrameList.dropLast } :=
  ⟨fun e he => h.1 e he, fun e he => h.2.1 e he,
   fun x hx => h.2.2 x ((List.dropLast_sublist _).subset hx)⟩

theorem bindPageD_WFF {s : Sim} {r f : Int} (hWF : SimWFF s)
    (h0r : 0 ≤ r) (hr : r.toNat < s.pageTable.length)
    (h0f : 0 ≤ f) (hf : f.toNat < s.frameTable.length) :
    SimWFF (bindPageD s r f) := by
  obtain ⟨hpt, hft, hfl⟩ := hWF
  have hlf : (bindPageD s r f).frameTable.length = s.frameTable.length := by
    show (s.frameTable.set _ _).length = _
    exact List.length_set _ _ _
  have hlp : (bindPageD s r f).pageTable.length = s.pageTable.length := by
    show (s.pageTable.set _ _).length = _
    exact List.length_set _ _ _
  refine ⟨?_, ?_, ?_⟩
  · intro e he
    rw [hlf]
    rcases List.mem_or_eq_of_mem_set he with h1 | h1
    · exact hpt e h1
    · rw [h1]
      exact ⟨h0f, hf⟩
  · intro e he
    rw [hlp]
    rcases List.mem_or_eq_of_mem_set he with h1 | h1
    · exact hft e h1
    · rw [h1]
      exact Or.inl ⟨h0r, hr⟩
  · intro x hx
    rw [hlf]
    exact hfl x hx

theorem invalidatePageD_WFF {s : Sim} {p : Int} (hWF : SimWFF s)
    (hp : p.toNat < s.pageTable.length) :
    SimWFF (invalidatePageD s p) := by
  obtain ⟨hpt, hft, hfl⟩ := hWF
  have hlp : (invalidatePageD s p).pageTable.length = s.pageTable.length := by
    show (s.pageTable.set _ _).length = _
    exact List.length_set _ _ _
  refine ⟨?_, ?_, ?_⟩
  · intro e he
    rcases List.mem_or_eq_of_mem_set he with h1 | h1
    · exact hpt e h1
    · rw [h1]
      have hb := hpt _ (getD_mem hp)
      exact ⟨hb.1, hb.2⟩
  · intro e he
    rw [hlp]
    exact hft e he
  · intro x hx
    exact hfl x hx

theorem SimWFF_set_neg1 {y : Sim} (h : SimWFF y) (j : Nat) (n : Nat) :
    SimWFF { y with
      frameTable := y.frameTable.set j { y.frameTable.getD j default with occupant := -1 },
      faultRate := n } := by
  obtain ⟨hpt, hft, hfl⟩ := h
  refine ⟨?_, ?_, ?_⟩
  · intro e he
    show _ ∧ _ < (y.frameTable.set _ _).length
    rw [List.length_set]
    exact hpt e he
  · intro e he
    rcases List.mem_or_eq_of_mem_set he with h1 | h1
    · exact hft e h1
    · rw [h1]
      exact Or.inr rfl
  · intro x hx
    show _ ∧ _ < (y.frameTable.set _ _).length
    rw [List.length_set]
    exact hfl x hx

theorem fifoAdvance_WF {F : Nat} (hF : 2 ≤ F) {c : Int} (h0 : 0 < c) (hc : c.toNat < F) :
    0 < fifoAdvance F c ∧ (fifoAdvance F c).toNat < F := by
  unfold fifoAdvance
  by_cases h : c - 1 = 0
  · rw [if_pos h]
    constructor <;> omega
  · rw [if_neg h]
    constructor <;> omega

theorem fifoStaleReplace_total {s : Sim} {r f : Int} (hWF : SimWFF s)
    (h0r : 0 ≤ r) (hr : r.toNat < s.pageTable.length)
    (h0f : 0 ≤ f) (hf : f.toNat < s.frameTable.length) :
    ∃ s', fifoStaleReplace s r f = some s' ∧ SimWFF s' ∧
      s'.pageTable.length = s.pageTable.length ∧
      s'.frameTable.length = s.frameTable.length := by
  have hpf := hWF.1 _ (getD_mem hr)
  unfold fifoStaleReplace
  rw [idx?_eq_some_getD h0r hr]
  simp only [Option.bind_eq_bind, Option.some_bind]
  rw [idx?_eq_some_getD h0f hf]
  simp only [Option.some_bind]
  rcases hWF.2.1 _ (getD_mem hf) with hocc | hocc
  · rw [show invalidateUnlessSentinel s (s.frameTable.getD f.toNat default).occupant
        = some (invalidatePageD s (s.frameTable.getD f.toNat default).occupant) by
      unfold invalidateUnlessSentinel
      rw [if_neg (by omega), invalidatePage_eq hocc.1 hocc.2]]
    simp only [Option.some_bind]
    have hWF1 := invalidatePageD_WFF hWF hocc.2
    have hr1 : r.toNat < (invalidatePageD s
        (s.frameTable.getD f.toNat default).occupant).pageTable.length := by
      simpa [invalidatePageD, List.length_set] using hr
    have hf1 : f.toNat < (invalidatePageD s
        (s.frameTable.getD f.toNat default).occupant).frameTable.length := by
      simpa [invalidatePageD] using hf
    rw [bindPage_eq h0r hr1 h0f hf1]
    simp only [Option.some_bind]
    have hWF2 := bindPageD_WFF hWF1 h0r hr1 h0f hf1
    have hof : ((s.pageTable.getD r.toNat default).frame).toNat
        < (bindPageD (invalidatePageD s (s.frameTable.getD f.toNat default).occupant)
            r f).frameTable.length := by
      simpa [bindPageD, invalidatePageD, List.length_set] using hpf.2
    rw [idx?_eq_some_getD hpf.1 hof]
    simp only [Option.some_bind]
    rw [setIdx?_eq_some hpf.1 hof]
    simp only [Option.some_bind]
    refine ⟨_, rfl, SimWFF_set_neg1 hWF2 _ _, ?_, ?_⟩
    · simp only [bindPageD, invalidatePageD, List.length_set]
    · simp only [bindPageD, invalidatePageD, List.length_set]
  · rw [show invalidateUnlessSentinel s (s.frameTable.getD f.toNat default).occupant
        = some s by
      unfold invalidateUnlessSentinel
      rw [if_pos hocc]]
    simp only [Option.some_bind]
    rw [bindPage_eq h0r hr h0f hf]
    simp only [Option.some_bind]
    have hWF2 := bindPageD_WFF hWF h0r hr h0f hf
    have hof : ((s.pageTable.getD r.toNat default).frame).toNat
        < (bindPageD s r f).frameTable.length := by
      simpa [bindPageD, List.length_set] using hpf.2
    rw [idx?_eq_some_getD hpf.1 hof]
    simp only [Option.some_bind]
    rw [setIdx?_eq_some hpf.1 hof]
    simp only [Option.some_bind]
    refine ⟨_, rfl, SimWFF_set_neg1 hWF2 _ _, ?_, ?_⟩
    · simp only [bindPageD, List.length_set]
    · simp only [bindPageD, List.length_set]

theorem stepFIFO_eq_of {F : Nat} {a : FifoAcc} {r : Int} {pte : PTE}
    (hpte : idx? a.sim.pageTable r = some pte) :
    stepFIFO F a r =
      (if pte.valid = false then
        if a.sim.freeFrameList.length = 0 then
          (evictBind a.sim r a.cursor).map
            (fun s' => ⟨s', fifoAdvance F a.cursor, a.evictLog ++ [a.cursor]⟩)
        else
          (allocFromFreeList a.sim r).map (fun s' => ⟨s', a.cursor, a.evictLog⟩)
      else
        match isInMemory a.sim.frameTable pte.frame r with
        | none => none
        | some true => some a
        | some false =>
          (fifoStaleReplace a.sim r a.cursor).map
            (fun s' => ⟨s', fifoAdvance F a.cursor, a.evictLog ++ [a.cursor]⟩)) := by
  unfold stepFIFO
  dsimp only
  rw [hpte]

theorem stepFIFO_total {F : Nat} (hF : 2 ≤ F) {a : FifoAcc} {r : Int}
    (hWF : SimWFF a.sim) (h0c : 0 < a.cursor) (hcF : a.cursor.toNat < F)
    (hft : a.sim.frameTable.length = F)
    (h0r : 0 ≤ r) (hr : r.toNat < a.sim.pageTable.length) :
    ∃ a', stepFIFO F a r = some a' ∧ SimWFF a'.sim ∧
      0 < a'.cursor ∧ a'.cursor.toNat < F ∧
      a'.sim.pageTable.length = a.sim.pageTable.length ∧
      a'.sim.frameTable.length = a.sim.frameTable.length := by
  have hc0 : 0 ≤ a.cursor := le_of_lt h0c
  have hcft : a.cursor.toNat < a.sim.frameTable.length := by omega
  have hadv := fifoAdvance_WF hF h0c hcF
  have hpte := idx?_eq_some_getD h0r hr
  rw [stepFIFO_eq_of hpte]
  by_cases hval : (a.sim.pageTable.getD r.toNat default).valid = false
  · rw [if_pos hval]
    by_cases hfl : a.sim.freeFrameList.length = 0
    · rw [if_pos hfl, evictBind_eq h0r hr hc0 hcft, Option.map_some']
      refine ⟨_, rfl, SimWFF_fault (bindPageD_WFF hWF h0r hr hc0 hcft) _,
        hadv.1, hadv.2, ?_, ?_⟩
      · simp only [bindPageD, List.length_set]
      · simp only [bindPageD, List.length_set]
    · have hflne : a.sim.freeFrameList ≠ [] := by
        intro hc
        exact hfl (by rw [hc]; rfl)
      have hlast := hWF.2.2 _ (getLastD_mem hflne 0)
      rw [if_neg hfl, allocFromFreeList_eq h0r hr hlast.1 hlast.2, Option.map_some']
      refine ⟨_, rfl,
        SimWFF_fault (bindPageD_WFF (SimWFF_dropLast hWF) h0r hr hlast.1 hlast.2) _,
        h0c, hcF, ?_, ?_⟩
      · simp only [bindPageD, List.length_set]
      · simp only [bindPageD, List.length_set]
  · rw [if_neg hval]
    have hpf := hWF.1 _ (getD_mem hr)
    rw [isInMemory_eq hpf.1 hpf.2]
    by_cases hmem :
        (a.sim.frameTable.getD
          ((a.sim.pageTable.getD r.toNat default).frame).toNat default).occupant = r
    · rw [decide_eq_true hmem]
      exact ⟨a, rfl, hWF, h0c, hcF, rfl, rfl⟩
    · rw [decide_eq_false hmem]
      obtain ⟨s', hs', hWF', hlp, hlf⟩ := fifoStaleReplace_total hWF h0r hr hc0 hcft
      rw [hs', Option.map_some']
      exact ⟨_, rfl, hWF', hadv.1, hadv.2, hlp, hlf⟩

theorem runRAN_total {P F : Nat} (hP : 0 < P) (hF : 0 < F) {rs : Nat → Int}
    (hrs : DrawsInRange F rs) {trace : List Int} (htr : TraceInRange P trace) :
    ∃ b, runRAN P F rs trace = some b ∧ SimWF b.1 ∧
      b.1.pageTable.length = P ∧ b.1.frameTable.length = F := by
  refine foldlM_total (stepRAN rs)
    (fun b => SimWF b.1 ∧ b.1.pageTable.length = P ∧ b.1.frameTable.length = F)
    (fun r => 0 ≤ r ∧ r.toNat < P) ?_ trace (freshSim P F, 0)
    ⟨freshSim_WF hP hF, by simp [freshSim], by simp [freshSim]⟩ htr
  intro b r hInv hQ
  obtain ⟨s, n⟩ := b
  obtain ⟨hWF, hlp, hlf⟩ := hInv
  obtain ⟨b', hb', hWF', hlp', hlf'⟩ := stepRAN_total hWF (hrs n).1
    (by rw [hlf]; exact (hrs n).2) hQ.1 (by rw [hlp]; exact hQ.2)
  exact ⟨b', hb', hWF', by rw [hlp', hlp], by rw [hlf', hlf]⟩

theorem runOPT_total {P F : Nat} (hP : 0 < P) (hF : 0 < F)
    {trace : List Int} (htr : TraceInRange P trace) :
    ∃ b, runOPT P F trace = some b ∧ SimWF b.1 ∧
      b.1.pageTable.length = P ∧ b.1.frameTable.length = F := by
  refine foldlM_total (stepOPT trace.length)
    (fun b => SimWF b.1 ∧ b.1.pageTable.length = P ∧ b.1.frameTable.length = F)
    (fun r => 0 ≤ r ∧ r.toNat < P) ?_ trace (freshSim P F, trace)
    ⟨freshSim_WF hP hF, by simp [freshSim], by simp [freshSim]⟩ htr
  intro b r hInv hQ
  obtain ⟨s, refString⟩ := b
  obtain ⟨hWF, hlp, hlf⟩ := hInv
  obtain ⟨b', hb', hWF', hlp', hlf'⟩ := stepOPT_total hWF
    (by rw [hlf]; exact hF) hQ.1 (by rw [hlp]; exact hQ.2)
  exact ⟨b', hb', hWF', by rw [hlp', hlp], by rw [hlf', hlf]⟩

theorem runRU_total {P F : Nat} (hP : 0 < P) (hF : 0 < F) {mru : Bool}
    {trace : List Int} (htr : TraceInRange P trace) :
    ∃ s, runRU P F mru trace = some s ∧ SimWF s ∧
      s.pageTable.length = P ∧ s.frameTable.length = F := by
  refine foldlM_total (stepRU mru)
    (fun s => SimWF s ∧ s.pageTable.length = P ∧ s.frameTable.length = F)
    (fun r => 0 ≤ r ∧ r.toNat < P) ?_ trace (freshSim P F)
    ⟨freshSim_WF hP hF, by simp [freshSim], by simp [freshSim]⟩ htr
  intro s r hInv hQ
  obtain ⟨hWF, hlp, hlf⟩ := hInv
  obtain ⟨s', hs', hWF', hlp', hlf'⟩ := stepRU_total hWF
    (by rw [hlf]; exact hF) hQ.1 (by rw [hlp]; exact hQ.2)
  exact ⟨s', hs', hWF', by rw [hlp', hlp], by rw [hlf', hlf]⟩

theorem runFIFO_total {P F : Nat} (hP : 0 < P) (hF : 2 ≤ F)
    {trace : List Int} (htr : TraceInRange P trace) :
    ∃ a, runFIFO P F trace = some a ∧ SimWFF a.sim ∧
      a.sim.pageTable.length = P ∧ a.sim.frameTable.length = F := by
  have h := foldlM_total (stepFIFO F)
    (fun a => SimWFF a.sim ∧ 0 < a.cursor ∧ a.cursor.toNat < F ∧
      a.sim.pageTable.length = P ∧ a.sim.frameTable.length = F)
    (fun r => 0 ≤ r ∧ r.toNat < P) ?_ trace ⟨freshSim P F, (F : Int) - 1, []⟩
    ⟨freshSim_WFF hP (by omega), by simp; omega, by simp; omega,
      by simp [freshSim], by simp [freshSim]⟩ htr
  · obtain ⟨a, ha, hWF, -, -, hlp, hlf⟩ := h
    exact ⟨a, ha, hWF, hlp, hlf⟩
  · intro a r hInv hQ
    obtain ⟨hWF, h0c, hcF, hlp, hlf⟩ := hInv
    obtain ⟨a', ha', hWF', h0c', hcF', hlp', hlf'⟩ := stepFIFO_total hF hWF h0c hcF
      hlf hQ.1 (by rw [hlp]; exact hQ.2)
    exact ⟨a', ha', hWF', h0c', hcF', by rw [hlp', hlp], by rw [hlf', hlf]⟩

/-- C9: the source performs no range check on a trace entry — an
out-of-range reference indexes the tables out of bounds (modelled as
`none`, see `C9_out_of_range_reference_indexes_table`) rather than
failing fast; the half of the claim that does hold is that for traces
whose entries all lie in `[0, MAX_PAGES)` (and a draw oracle producing
frame indices) every policy's run completes with every table access in
range. -/
theorem C9_amended (P F : Nat) (hP : 0 < P) (hF : 2 ≤ F)
    (rs : Nat → Int) (hrs : DrawsInRange F rs)
    (trace : List Int) (htr : TraceInRange P trace) :
    (runRAN P F rs trace).isSome = true ∧
    (runOPT P F trace).isSome = true ∧
    (runRU P F false trace).isSome = true ∧
    (runRU P F true trace).isSome = true ∧
    (runFIFO P F trace).isSome = true := by
  obtain ⟨b1, hb1, -⟩ := runRAN_total (F := F) hP (by omega) hrs htr
  obtain ⟨b2, hb2, -⟩ := @runOPT_total P F hP (by omega) trace htr
  obtain ⟨s3, hs3, -⟩ := @runRU_total P F hP (by omega) false trace htr
  obtain ⟨s4, hs4, -⟩ := @runRU_total P F hP (by omega) true trace htr
  obtain ⟨a5, ha5, -⟩ := runFIFO_total hP hF htr
  rw [hb1, hb2, hs3, hs4, ha5]
  exact ⟨rfl, rfl, rfl, rfl, rfl⟩

/-- Witness for the amended C9 at a concrete input: with 2 pages, 2
frames, the all-zeros draw oracle and the in-range trace `0,1,0`,
every policy's run completes. -/
theorem C9_amended_witness :
    (runRAN 2 2 zeroDraws [0, 1, 0]).isSome = true ∧
    (runOPT 2 2 [0, 1, 0]).isSome = true ∧
    (runRU 2 2 false [0, 1, 0]).isSome = true ∧
    (runRU 2 2 true [0, 1, 0]).isSome = true ∧
    (runFIFO 2 2 [0, 1, 0]).isSome = true :=
  C9_amended 2 2 (by decide) (by decide) zeroDraws
    (fun n => ⟨le_refl 0, by show ((0 : Int)).toNat < 2; decide⟩) [0, 1, 0]
    (by unfold TraceInRange; decide)

theorem getD_replicate [Inhabited α] {n i : Nat} {a : α} (h : i < n) :
    (List.replicate n a).getD i default = a := by
  rw [List.getD_eq_getElem?_getD, List.getElem?_replicate, if_pos h]
  rfl

theorem natCast_mem_range_map {k f : Nat} :
    ((f : Int) ∈ (List.range k).map Int.ofNat) ↔ f < k := by
  simp only [List.mem_map, List.mem_range]
  constructor
  · rintro ⟨j, hj, he⟩
    have hjf : j = f := by
      have := congrArg Int.toNat he
      simpa using this
    omega
  · intro h
    exact ⟨f, h, rfl⟩

theorem GoodAlloc_fresh (P F : Nat) : GoodAlloc P F [] (freshSim P F) := by
  refine ⟨by simp [freshSim], by simp [freshSim], F, le_refl F, rfl, by simp, ?_, ?_, ?_⟩
  · intro p hp
    have he : ((freshSim P F).pageTable.getD p default) = ⟨0, false, 0⟩ := by
      show (List.replicate P (⟨0, false, 0⟩ : PTE)).getD p default = _
      exact getD_replicate hp
    rw [he]
    simp
  · intro p hp hvalid
    have he : ((freshSim P F).pageTable.getD p default) = ⟨0, false, 0⟩ := by
      show (List.replicate P (⟨0, false, 0⟩ : PTE)).getD p default = _
      exact getD_replicate hp
    rw [he] at hvalid
    exact absurd hvalid (by simp)
  · intro f hkf hf
    omega

theorem GoodAlloc_append_mem {P F : Nat} {pre : List Int} {s : Sim} {r : Int}
    (hg : GoodAlloc P F pre s) (hmem : r ∈ pre) :
    GoodAlloc P F (pre ++ [r]) s := by
  obtain ⟨hlp, hlf, k, hkF, hflEq, hkcard, hvIff, hback, hocc⟩ := hg
  have hfins : (pre ++ [r]).toFinset = pre.toFinset := by
    rw [List.toFinset_append]
    have : ([r] : List Int).toFinset = {r} := by simp
    rw [this]
    rw [Finset.union_comm, ← Finset.insert_eq]
    exact Finset.insert_eq_self.mpr (List.mem_toFinset.mpr hmem)
  refine ⟨hlp, hlf, k, hkF, hflEq, by rw [hfins]; exact hkcard, ?_, hback, hocc⟩
  intro p hp
  rw [hvIff p hp]
  constructor
  · intro h1
    exact List.mem_append.mpr (Or.inl h1)
  · intro h1
    rcases List.mem_append.mp h1 with h2 | h2
    · exact h2
    · have : (p : Int) = r := by simpa using h2
      rw [this]
      exact hmem

theorem GoodAlloc_partition {P F : Nat} {pre : List Int} {s : Sim}
    (hg : GoodAlloc P F pre s) : PartitionInv s := by
  obtain ⟨hlp, hlf, k, hkF, hflEq, hkcard, hvIff, hback, hocc⟩ := hg
  refine ⟨?_, ?_, ?_⟩
  · intro f hf
    rw [hflEq, natCast_mem_range_map]
    constructor
    · intro hfk
      by_contra hne
      have ht : frameOccupied s f = true := by
        revert hne
        cases frameOccupied s f <;> simp
      obtain ⟨hflen, hq0, hqP, hqv, hqf⟩ := frameOccupied_iff.mp ht
      have h6 := hback ((s.frameTable.getD f default).occupant).toNat
        (by rw [← hlp]; exact hqP) hqv
      have hfr : (((s.pageTable.getD
          ((s.frameTable.getD f default).occupant).toNat default).frame)).toNat = f := by
        rw [hqf]
        simp
      omega
    · intro hne
      by_contra hge
      have hkf : k ≤ f := by omega
      have := hocc f hkf (by rw [← hlf]; exact hf)
      rw [this] at hne
      exact Bool.noConfusion hne
  · rw [hflEq]
    exact List.Nodup.map (fun a b h => by
      have := congrArg Int.toNat h
      simpa using this) (List.nodup_range k)
  · intro x hx
    rw [hflEq] at hx
    obtain ⟨j, hj, rfl⟩ := List.mem_map.mp hx
    have hj' := List.mem_range.mp hj
    refine ⟨Int.natCast_nonneg j, ?_⟩
    rw [hlf]
    simpa using (by omega : j < F)

theorem GoodAlloc_valid_iff {P F : Nat} {pre : List Int} {s : Sim}
    (hg : GoodAlloc P F pre s) {p : Nat} (hp : p < P) :
    ((s.pageTable.getD p default).valid = true ↔ (p : Int) ∈ pre) := by
  obtain ⟨-, -, k, -, -, -, hvIff, -, -⟩ := hg
  exact hvIff p hp

theorem GoodAlloc_hit {P F : Nat} {pre : List Int} {s : Sim} {r : Int}
    (hg : GoodAlloc P F pre s) (h0r : 0 ≤ r) (hr : r.toNat < P)
    (hval : (s.pageTable.getD r.toNat default).valid = true) :
    0 ≤ (s.pageTable.getD r.toNat default).frame ∧
    ((s.pageTable.getD r.toNat default).frame).toNat < s.frameTable.length ∧
    (s.frameTable.getD ((s.pageTable.getD r.toNat default).frame).toNat default).occupant
      = r ∧ r ∈ pre := by
  have hvIff := GoodAlloc_valid_iff hg hr
  obtain ⟨hlp, hlf, k, hkF, hflEq, hkcard, -, hback, hocc⟩ := hg
  obtain ⟨h1, h2, h3, h4⟩ := hback r.toNat hr hval
  have hcastr : ((r.toNat : Nat) : Int) = r := Int.toNat_of_nonneg h0r
  refine ⟨h1, by rw [hlf]; exact h3, by rw [h4]; exact hcastr, ?_⟩
  have h5 := hvIff.mp hval
  rw [hcastr] at h5
  exact h5

theorem GoodAlloc_ruTouchD {P F : Nat} {pre : List Int} {s : Sim} {r : Int}
    (hg : GoodAlloc P F pre s) :
    GoodAlloc P F pre (ruTouchD s r) := by
  obtain ⟨hlp, hlf, k, hkF, hflEq, hkcard, hvIff, hback, hocc⟩ := hg
  have hoccEq : ∀ j : Nat, ((ruTouchD s r).frameTable.getD j default).occupant
      = (s.frameTable.getD j default).occupant := by
    intro j
    show ((s.frameTable.set _ _).getD j default).occupant = _
    by_cases he : ((s.pageTable.getD r.toNat default).frame).toNat = j
    · subst he
      by_cases hlt : ((s.pageTable.getD r.toNat default).frame).toNat < s.frameTable.length
      · rw [getD_set_self hlt]
      · rw [List.set_eq_of_length_le (by omega)]
    · rw [getD_set_ne he]
  have hptEq : (ruTouchD s r).pageTable = s.pageTable := rfl
  have hftLen : (ruTouchD s r).frameTable.length = s.frameTable.length := by
    show (s.frameTable.set _ _).length = _
    exact List.length_set _ _ _
  have hflEq2 : (ruTouchD s r).freeFrameList = s.freeFrameList := rfl
  refine ⟨by rw [hptEq]; exact hlp, by rw [hftLen]; exact hlf, k, hkF,
    by rw [hflEq2]; exact hflEq, hkcard, ?_, ?_, ?_⟩
  · intro p hp
    rw [hptEq]
    exact hvIff p hp
  · intro p hp hpv
    rw [hptEq] at hpv ⊢
    obtain ⟨h1, h2, h3, h4⟩ := hback p hp hpv
    exact ⟨h1, h2, h3, by rw [hoccEq]; exact h4⟩
  · intro f h1 h2
    rw [show frameOccupied (ruTouchD s r) f = frameOccupied s f from
      ruTouchD_frameOccupied s r f]
    exact hocc f h1 h2

theorem GoodAlloc_alloc {P F : Nat} {pre : List Int} {s : Sim} {r : Int}
    (hg : GoodAlloc P F pre s) (h0r : 0 ≤ r) (hr : r.toNat < P)
    (hval : (s.pageTable.getD r.toNat default).valid = false)
    (hcard : (pre ++ [r]).toFinset.card ≤ F) :
    s.freeFrameList.length ≠ 0 ∧
    0 ≤ s.freeFrameList.getLastD 0 ∧
    (s.freeFrameList.getLastD 0).toNat < s.frameTable.length ∧
    GoodAlloc P F (pre ++ [r])
      { bindPageD { s with freeFrameList := s.freeFrameList.dropLast } r
          (s.freeFrameList.getLastD 0) with faultRate := s.faultRate + 1 } := by
  obtain ⟨hlp, hlf, k, hkF, hflEq, hkcard, hvIff, hback, hocc⟩ := hg
  have hrP : r.toNat < s.pageTable.length := by rw [hlp]; exact hr
  have hcastr : ((r.toNat : Nat) : Int) = r := Int.toNat_of_nonneg h0r
  have hrpre : r ∉ pre := by
    intro hmem
    have h1 := (hvIff r.toNat hr).mpr (by rw [hcastr]; exact hmem)
    rw [hval] at h1
    exact Bool.noConfusion h1
  have hfins : (pre ++ [r]).toFinset = insert r pre.toFinset := by
    rw [List.toFinset_append]
    have h2 : ([r] : List Int).toFinset = {r} := by simp
    rw [h2, Finset.union_comm, ← Finset.insert_eq]
  have hcard1 : (pre ++ [r]).toFinset.card = pre.toFinset.card + 1 := by
    rw [hfins, Finset.card_insert_of_not_mem (by rw [List.mem_toFinset]; exact hrpre)]
  obtain ⟨k', rfl⟩ : ∃ k', k = k' + 1 := ⟨k - 1, by omega⟩
  have hflEq' : s.freeFrameList = (List.range k').map Int.ofNat ++ [Int.ofNat k'] := by
    rw [hflEq, List.range_succ, List.map_append]
    rfl
  have hlastEq : s.freeFrameList.getLastD 0 = Int.ofNat k' := by
    rw [hflEq', List.getLastD_eq_getLast?, List.getLast?_concat]
    rfl
  have hidx : (s.freeFrameList.getLastD 0).toNat = k' := by
    rw [hlastEq]
    rfl
  have hdropEq : s.freeFrameList.dropLast = (List.range k').map Int.ofNat := by
    rw [hflEq', List.dropLast_concat]
  have hlen0 : s.freeFrameList.length ≠ 0 := by
    rw [hflEq']
    simp
  have hkF' : k' < F := by omega
  have hkft : k' < s.frameTable.length := by rw [hlf]; exact hkF'
  refine ⟨hlen0, by rw [hlastEq]; exact Int.natCast_nonneg k', by rw [hidx]; exact hkft, ?_⟩
  set t := { bindPageD { s with freeFrameList := s.freeFrameList.dropLast } r
      (s.freeFrameList.getLastD 0) with faultRate := s.faultRate + 1 } with ht
  have hptP : t.pageTable.length = P := by
    show (s.pageTable.set _ _).length = P
    rw [List.length_set]
    exact hlp
  have hftF : t.frameTable.length = F := by
    show (s.frameTable.set _ _).length = F
    rw [List.length_set]
    exact hlf
  have hpt_self : t.pageTable.getD r.toNat default
      = { s.pageTable.getD r.toNat default with
          frame := s.freeFrameList.getLastD 0, valid := true } := by
    show (s.pageTable.set r.toNat _).getD r.toNat default = _
    exact getD_set_self hrP _
  have hpt_ne : ∀ q : Nat, q ≠ r.toNat →
      t.pageTable.getD q default = s.pageTable.getD q default := by
    intro q hq
    show (s.pageTable.set r.toNat _).getD q default = _
    exact getD_set_ne (fun he => hq he.symm) _
  have hft_self : t.frameTable.getD k' default
      = { s.frameTable.getD k' default with occupant := r } := by
    show (s.frameTable.set (s.freeFrameList.getLastD 0).toNat _).getD k' default = _
    rw [hidx]
    exact getD_set_self hkft _
  have hft_ne : ∀ j : Nat, j ≠ k' →
      t.frameTable.getD j default = s.frameTable.getD j default := by
    intro j hj
    show (s.frameTable.set (s.freeFrameList.getLastD 0).toNat _).getD j default = _
    exact getD_set_ne (by rw [hidx]; exact fun he => hj he.symm) _
  have hflT : t.freeFrameList = (List.range k').map Int.ofNat := by
    show s.freeFrameList.dropLast = _
    exact hdropEq
  refine ⟨hptP, hftF, k', by omega, hflT, by rw [hcard1]; omega, ?_, ?_, ?_⟩
  · intro p hp
    by_cases hpr : p = r.toNat
    · subst hpr
      rw [hpt_self]
      constructor
      · intro h1
        refine List.mem_append.mpr (Or.inr ?_)
        rw [hcastr]
        exact List.mem_singleton_self r
      · intro h1
        rfl
    · rw [hpt_ne p hpr, hvIff p hp]
      constructor
      · intro h1
        exact List.mem_append.mpr (Or.inl h1)
      · intro h1
        rcases List.mem_append.mp h1 with h2 | h2
        · exact h2
        · exfalso
          have h3 : (p : Int) = r := by simpa using h2
          have h4 : p = r.toNat := by
            have h5 := congrArg Int.toNat h3
            simpa using h5
          exact hpr h4
  · intro p hp hpv
    by_cases hpr : p = r.toNat
    · subst hpr
      have hfr : (t.pageTable.getD r.toNat default).frame = s.freeFrameList.getLastD 0 := by
        rw [hpt_self]
      refine ⟨?_, ?_, ?_, ?_⟩
      · rw [hfr, hlastEq]
        exact Int.natCast_nonneg k'
      · rw [hfr, hidx]
      · rw [hfr, hidx]
        exact hkF'
      · rw [hfr, hidx, hft_self]
        exact hcastr.symm
    · have hpv' : (s.pageTable.getD p default).valid = true := by
        rw [← hpt_ne p hpr]
        exact hpv
      obtain ⟨h61, h62, h63, h64⟩ := hback p hp hpv'
      have hfr : (t.pageTable.getD p default).frame = (s.pageTable.getD p default).frame := by
        rw [hpt_ne p hpr]
      refine ⟨?_, ?_, ?_, ?_⟩
      · rw [hfr]
        exact h61
      · rw [hfr]
        omega
      · rw [hfr]
        exact h63
      · rw [hfr, hft_ne _ (by omega)]
        exact h64
  · intro f hk'f hfF
    by_cases hf : f = k'
    · subst hf
      rw [frameOccupied_iff]
      refine ⟨?_, ?_, ?_, ?_, ?_⟩
      · rw [hftF]
        exact hfF
      · rw [hft_self]
        exact h0r
      · rw [hft_self]
        show r.toNat < t.pageTable.length
        rw [hptP]
        exact hr
      · rw [hft_self]
        show (t.pageTable.getD r.toNat default).valid = true
        rw [hpt_self]
      · rw [hft_self]
        show (t.pageTable.getD r.toNat default).frame = (f : Int)
        rw [hpt_self]
        show s.freeFrameList.getLastD 0 = (f : Int)
        rw [hlastEq]
        rfl
    · have hfge : k' + 1 ≤ f := by omega
      have hoccS := hocc f hfge hfF
      rw [frameOccupied_iff] at hoccS
      obtain ⟨hflen, hq0, hqP, hqv, hqf⟩ := hoccS
      rw [frameOccupied_iff]
      have hocce : t.frameTable.getD f default = s.frameTable.getD f default := hft_ne f hf
      have hqr : ((s.frameTable.getD f default).occupant).toNat ≠ r.toNat := by
        intro he
        rw [he] at hqv
        rw [hval] at hqv
        exact Bool.noConfusion hqv
      refine ⟨?_, ?_, ?_, ?_, ?_⟩
      · rw [hftF]
        exact hfF
      · rw [hocce]
        exact hq0
      · rw [hocce, hptP, ← hlp]
        exact hqP
      · rw [hocce, hpt_ne _ hqr]
        exact hqv
      · rw [hocce, hpt_ne _ hqr]
        exact hqf

theorem stepRU_goodAlloc {P F : Nat} {mru : Bool} {pre : List Int} {s : Sim} {r : Int}
    (hg : GoodAlloc P F pre s) (h0r : 0 ≤ r) (hr : r.toNat < P)
    (hcard : (pre ++ [r]).toFinset.card ≤ F) :
    ∃ s', stepRU mru s r = some s' ∧ GoodAlloc P F (pre ++ [r]) s' := by
  have hlp := hg.1
  have hrP : r.toNat < s.pageTable.length := by rw [hlp]; exact hr
  have hcastr : ((r.toNat : Nat) : Int) = r := Int.toNat_of_nonneg h0r
  have hpte := idx?_eq_some_getD h0r hrP
  rw [stepRU_eq_of hpte]
  by_cases hval : (s.pageTable.getD r.toNat default).valid = false
  · obtain ⟨hlen0, hlast0, hlastlt, hg'⟩ := GoodAlloc_alloc hg h0r hr hval hcard
    rw [if_pos hval, if_neg hlen0, allocFromFreeList_eq h0r hrP hlast0 hlastlt,
      Option.some_bind]
    have hmemr : r ∈ pre ++ [r] := List.mem_append.mpr (Or.inr (List.mem_singleton_self r))
    have hvalid' := (GoodAlloc_valid_iff hg' hr).mpr (by rw [hcastr]; exact hmemr)
    obtain ⟨hh1, hh2, -, -⟩ := GoodAlloc_hit hg' h0r hr hvalid'
    rw [ruTouch_eq h0r (by rw [hg'.1]; exact hr) hh1 hh2]
    exact ⟨_, rfl, GoodAlloc_ruTouchD hg'⟩
  · rw [if_neg hval]
    have hvalT : (s.pageTable.getD r.toNat default).valid = true := by
      revert hval
      cases (s.pageTable.getD r.toNat default).valid <;> simp
    obtain ⟨hh1, hh2, hh3, hmem⟩ := GoodAlloc_hit hg h0r hr hvalT
    rw [isInMemory_eq hh1 hh2, decide_eq_true hh3]
    show ∃ s', (some s).bind (fun s' => ruTouch s' r) = some s' ∧ _
    rw [Option.some_bind, ruTouch_eq h0r hrP hh1 hh2]
    exact ⟨_, rfl, GoodAlloc_ruTouchD (GoodAlloc_append_mem hg hmem)⟩

theorem stepRAN_goodAlloc {P F : Nat} {rs : Nat → Int} {pre : List Int} {s : Sim}
    {n : Nat} {r : Int}
    (hg : GoodAlloc P F pre s) (h0r : 0 ≤ r) (hr : r.toNat < P)
    (hcard : (pre ++ [r]).toFinset.card ≤ F) :
    ∃ b, stepRAN rs (s, n) r = some b ∧ GoodAlloc P F (pre ++ [r]) b.1 := by
  have hlp := hg.1
  have hrP : r.toNat < s.pageTable.length := by rw [hlp]; exact hr
  have hpte := idx?_eq_some_getD h0r hrP
  rw [stepRAN_eq_of hpte]
  by_cases hval : (s.pageTable.getD r.toNat default).valid = false
  · obtain ⟨hlen0, hlast0, hlastlt, hg'⟩ := GoodAlloc_alloc hg h0r hr hval hcard
    rw [if_pos hval, if_neg hlen0, allocFromFreeList_eq h0r hrP hlast0 hlastlt,
      Option.map_some']
    exact ⟨_, rfl, hg'⟩
  · rw [if_neg hval]
    have hvalT : (s.pageTable.getD r.toNat default).valid = true := by
      revert hval
      cases (s.pageTable.getD r.toNat default).valid <;> simp
    obtain ⟨hh1, hh2, hh3, hmem⟩ := GoodAlloc_hit hg h0r hr hvalT
    rw [isInMemory_eq hh1 hh2, decide_eq_true hh3]
    exact ⟨(s, n), rfl, GoodAlloc_append_mem hg hmem⟩

theorem stepOPT_goodAlloc {P F poolSize : Nat} {pre refString : List Int} {s : Sim} {r : Int}
    (hg : GoodAlloc P F pre s) (h0r : 0 ≤ r) (hr : r.toNat < P)
    (hcard : (pre ++ [r]).toFinset.card ≤ F) :
    ∃ b, stepOPT poolSize (s, refString) r = some b ∧ GoodAlloc P F (pre ++ [r]) b.1 := by
  have hlp := hg.1
  have hrP : r.toNat < s.pageTable.length := by rw [hlp]; exact hr
  have hpte := idx?_eq_some_getD h0r hrP
  rw [stepOPT_eq_of hpte]
  by_cases hval : (s.pageTable.getD r.toNat default).valid = false
  · obtain ⟨hlen0, hlast0, hlastlt, hg'⟩ := GoodAlloc_alloc hg h0r hr hval hcard
    rw [if_pos hval, if_neg hlen0, allocFromFreeList_eq h0r hrP hlast0 hlastlt,
      Option.map_some']
    exact ⟨_, rfl, hg'⟩
  · rw [if_neg hval]
    have hvalT : (s.pageTable.getD r.toNat default).valid = true := by
      revert hval
      cases (s.pageTable.getD r.toNat default).valid <;> simp
    obtain ⟨hh1, hh2, hh3, hmem⟩ := GoodAlloc_hit hg h0r hr hvalT
    rw [isInMemory_eq hh1 hh2, decide_eq_true hh3]
    exact ⟨(s, refString.tail), rfl, GoodAlloc_append_mem hg hmem⟩

theorem stepFIFO_goodAlloc {P F : Nat} {pre : List Int} {a : FifoAcc} {r : Int}
    (hg : GoodAlloc P F pre a.sim) (h0r : 0 ≤ r) (hr : r.toNat < P)
    (hcard : (pre ++ [r]).toFinset.card ≤ F) :
    ∃ a', stepFIFO F a r = some a' ∧ GoodAlloc P F (pre ++ [r]) a'.sim := by
  have hlp := hg.1
  have hrP : r.toNat < a.sim.pageTable.length := by rw [hlp]; exact hr
  have hpte := idx?_eq_some_getD h0r hrP
  rw [stepFIFO_eq_of hpte]
  by_cases hval : (a.sim.pageTable.getD r.toNat default).valid = false
  · obtain ⟨hlen0, hlast0, hlastlt, hg'⟩ := GoodAlloc_alloc hg h0r hr hval hcard
    rw [if_pos hval, if_neg hlen0, allocFromFreeList_eq h0r hrP hlast0 hlastlt,
      Option.map_some']
    exact ⟨_, rfl, hg'⟩
  · rw [if_neg hval]
    have hvalT : (a.sim.pageTable.getD r.toNat default).valid = true := by
      revert hval
      cases (a.sim.pageTable.getD r.toNat default).valid <;> simp
    obtain ⟨hh1, hh2, hh3, hmem⟩ := GoodAlloc_hit hg h0r hr hvalT
    rw [isInMemory_eq hh1 hh2, decide_eq_true hh3]
    exact ⟨a, rfl, GoodAlloc_append_mem hg hmem⟩

theorem take_succ_eq {l : List Int} {m : Nat} (hm : m < l.length) :
    l.take (m + 1) = l.take m ++ [l.get ⟨m, hm⟩] := by
  rw [List.take_succ, List.getElem?_eq_getElem hm]
  rfl

theorem foldlM_take_inv {σ : Type _} (step : σ → Int → Option σ)
    (Inv : List Int → σ → Prop) (trace : List Int) (s0 : σ) (h0 : Inv [] s0)
    (hstep : ∀ (m : Nat) (hm : m < trace.length) (s : σ), Inv (trace.take m) s →
      ∃ s', step s (trace.get ⟨m, hm⟩) = some s' ∧ Inv (trace.take (m + 1)) s') :
    ∀ n, n ≤ trace.length →
      ∃ s, (trace.take n).foldlM step s0 = some s ∧ Inv (trace.take n) s := by
  intro n
  induction n with
  | zero =>
    intro _
    exact ⟨s0, by simp, by simpa using h0⟩
  | succ m ih =>
    intro hm
    have hmlt : m < trace.length := by omega
    obtain ⟨s, hs, hinv⟩ := ih (by omega)
    obtain ⟨s', hs', hinv'⟩ := hstep m hmlt s hinv
    refine ⟨s', ?_, hinv'⟩
    rw [foldlM_take_succ step trace s0 m hmlt, hs]
    simpa using hs'

theorem prefix_card_le {trace : List Int} {F : Nat} (hcard : trace.toFinset.card ≤ F)
    {m : Nat} (hm : m < trace.length) :
    (trace.take m ++ [trace.get ⟨m, hm⟩]).toFinset.card ≤ F := by
  refine le_trans (Finset.card_le_card ?_) hcard
  intro x hx
  rw [List.mem_toFinset] at hx ⊢
  rcases List.mem_append.mp hx with h1 | h1
  · exact (List.take_subset m trace) h1
  · have h2 : x = trace.get ⟨m, hm⟩ := by simpa using h1
    rw [h2]
    exact List.get_mem trace _ _

theorem runRU_goodAlloc {P F : Nat} {mru : Bool} {trace : List Int}
    (htr : TraceInRange P trace) (hcard : trace.toFinset.card ≤ F)
    (n : Nat) (hn : n ≤ trace.length) :
    ∃ s, runRU P F mru (trace.take n) = some s ∧ GoodAlloc P F (trace.take n) s := by
  unfold runRU
  refine foldlM_take_inv (stepRU mru) (fun q s => GoodAlloc P F q s) trace (freshSim P F)
    (GoodAlloc_fresh P F) ?_ n hn
  intro m hm s hinv
  have hq := htr (trace.get ⟨m, hm⟩) (List.get_mem trace _ _)
  obtain ⟨s', hs', hg'⟩ := stepRU_goodAlloc hinv hq.1 hq.2 (prefix_card_le hcard hm)
  refine ⟨s', hs', ?_⟩
  rw [take_succ_eq hm]
  exact hg'

theorem runRAN_goodAlloc {P F : Nat} {rs : Nat → Int} {trace : List Int}
    (htr : TraceInRange P trace) (hcard : trace.toFinset.card ≤ F)
    (n : Nat) (hn : n ≤ trace.length) :
    ∃ b, runRAN P F rs (trace.take n) = some b ∧ GoodAlloc P F (trace.take n) b.1 := by
  unfold runRAN
  refine foldlM_take_inv (stepRAN rs) (fun q b => GoodAlloc P F q b.1) trace
    (freshSim P F, 0) (GoodAlloc_fresh P F) ?_ n hn
  intro m hm b hinv
  obtain ⟨s, c⟩ := b
  have hq := htr (trace.get ⟨m, hm⟩) (List.get_mem trace _ _)
  obtain ⟨b', hb', hg'⟩ := stepRAN_goodAlloc hinv hq.1 hq.2 (prefix_card_le hcard hm)
  refine ⟨b', hb', ?_⟩
  rw [take_succ_eq hm]
  exact hg'

theorem foldOPT_goodAlloc {P F : Nat} {trace init : List Int}
    (htr : TraceInRange P trace) (hcard : trace.toFinset.card ≤ F)
    (n : Nat) (hn : n ≤ trace.length) :
    ∃ b, (trace.take n).foldlM (stepOPT trace.length) (freshSim P F, init) = some b ∧
      GoodAlloc P F (trace.take n) b.1 := by
  refine foldlM_take_inv (stepOPT trace.length) (fun q b => GoodAlloc P F q b.1) trace
    (freshSim P F, init) (GoodAlloc_fresh P F) ?_ n hn
  intro m hm b hinv
  obtain ⟨s, rest⟩ := b
  have hq := htr (trace.get ⟨m, hm⟩) (List.get_mem trace _ _)
  obtain ⟨b', hb', hg'⟩ := stepOPT_goodAlloc hinv hq.1 hq.2 (prefix_card_le hcard hm)
  refine ⟨b', hb', ?_⟩
  rw [take_succ_eq hm]
  exact hg'

theorem runFIFO_goodAlloc {P F : Nat} {trace : List Int}
    (htr : TraceInRange P trace) (hcard : trace.toFinset.card ≤ F)
    (n : Nat) (hn : n ≤ trace.length) :
    ∃ a, runFIFO P F (trace.take n) = some a ∧ GoodAlloc P F (trace.take n) a.sim := by
  unfold runFIFO
  refine foldlM_take_inv (stepFIFO F) (fun q a => GoodAlloc P F q a.sim) trace
    ⟨freshSim P F, (F : Int) - 1, []⟩ (GoodAlloc_fresh P F) ?_ n hn
  intro m hm a hinv
  have hq := htr (trace.get ⟨m, hm⟩) (List.get_mem trace _ _)
  obtain ⟨a', ha', hg'⟩ := stepFIFO_goodAlloc hinv hq.1 hq.2 (prefix_card_le hcard hm)
  refine ⟨a', ha', ?_⟩
  rw [take_succ_eq hm]
  exact hg'

/-- C6: the free-list/occupied-frame partition does **not** hold at
every point of every run (`C6_frame_both_free_and_occupied`); it does
hold along any run in which no eviction or stale-replacement path is
ever taken — in particular whenever the trace references at most
`MAX_FRAMES` distinct in-range pages, every policy's run satisfies the
partition invariant (free and occupied frames disjoint, union the full
frame range, free list duplicate-free) at every intermediate point. -/
theorem C6_amended (P F : Nat) (rs : Nat → Int) (trace : List Int)
    (htr : TraceInRange P trace) (hcard : trace.toFinset.card ≤ F)
    (n : Nat) (hn : n ≤ trace.length) :
    (∃ b, runRAN P F rs (trace.take n) = some b ∧ PartitionInv b.1) ∧
    (∃ b, (trace.take n).foldlM (stepOPT trace.length) (freshSim P F, trace) = some b ∧
      PartitionInv b.1) ∧
    (∃ s, runRU P F false (trace.take n) = some s ∧ PartitionInv s) ∧
    (∃ s, runRU P F true (trace.take n) = some s ∧ PartitionInv s) ∧
    (∃ a, runFIFO P F (trace.take n) = some a ∧ PartitionInv a.sim) := by
  obtain ⟨b1, hb1, hg1⟩ := @runRAN_goodAlloc P F rs trace htr hcard n hn
  obtain ⟨b2, hb2, hg2⟩ := @foldOPT_goodAlloc P F trace trace htr hcard n hn
  obtain ⟨s3, hs3, hg3⟩ := @runRU_goodAlloc P F false trace htr hcard n hn
  obtain ⟨s4, hs4, hg4⟩ := @runRU_goodAlloc P F true trace htr hcard n hn
  obtain ⟨a5, ha5, hg5⟩ := runFIFO_goodAlloc htr hcard n hn
  exact ⟨⟨b1, hb1, GoodAlloc_partition hg1⟩, ⟨b2, hb2, GoodAlloc_partition hg2⟩,
    ⟨s3, hs3, GoodAlloc_partition hg3⟩, ⟨s4, hs4, GoodAlloc_partition hg4⟩,
    ⟨a5, ha5, GoodAlloc_partition hg5⟩⟩

/-- Witness for the amended C6 at a concrete input: 2 pages, 2 frames,
the trace `0,1,0` touching 2 distinct pages, after all 3 references. -/
theorem C6_amended_witness :
    (∃ b, runRAN 2 2 zeroDraws ([0, 1, 0].take 3) = some b ∧ PartitionInv b.1) ∧
    (∃ b, ([0, 1, 0].take 3).foldlM (stepOPT [0, 1, 0].length) (freshSim 2 2, [0, 1, 0])
      = some b ∧ PartitionInv b.1) ∧
    (∃ s, runRU 2 2 false ([0, 1, 0].take 3) = some s ∧ PartitionInv s) ∧
    (∃ s, runRU 2 2 true ([0, 1, 0].take 3) = some s ∧ PartitionInv s) ∧
    (∃ a, runFIFO 2 2 ([0, 1, 0].take 3) = some a ∧ PartitionInv a.sim) :=
  C6_amended 2 2 zeroDraws [0, 1, 0] (by unfold TraceInRange; decide) (by decide)
    3 (by decide)
